import Mathlib

/-!
Verification of the text-encoding and literal-escaping utility layer of the
voxelcore repository (UTF-8 boundary scanning, code-point codec, wide-string
codec, Base64 codec, literal escaper and quoted-literal parser), together
with the world-lifecycle and memory-device registration guards of the Lua
`app` library.

Byte sequences, code points and wide code units are embedded as `List Nat`
with explicit range side conditions; fallible codecs return `Option` or
`Except`.
-/

/-- Error kinds of the codec layer (spec section 7). -/
inductive StrUtilError where
  | malformedEncoding
  | codepointOutOfRange
  | invalidBase64
  | unterminatedLiteral
  | invalidEscape
deriving DecidableEq

/-- A UTF-8 continuation byte: top two bits are `10`. -/
def isCont (b : Nat) : Prop := 128 ≤ b ∧ b < 192

instance (b : Nat) : Decidable (isCont b) :=
  inferInstanceAs (Decidable (128 ≤ b ∧ b < 192))

/-- Modelled from the spec: the encoding half of `CodepointCodec`
(`util::u32str2str_utf8`, whose implementation is not in src); the minimal
1-4 byte UTF-8 form of one code point, written with `/` and `%` for the
bit slicing. -/
def encCp (c : Nat) : List Nat :=
  if c < 128 then [c]
  else if c < 2048 then [192 + c / 64, 128 + c % 64]
  else if c < 65536 then [224 + c / 4096, 128 + c / 64 % 64, 128 + c % 64]
  else [240 + c / 262144, 128 + c / 4096 % 64, 128 + c / 64 % 64, 128 + c % 64]

/-- Modelled from the spec: encoding of a single code point fails with
`CodepointOutOfRange` above 0x10FFFF. -/
def encodeCp (c : Nat) : Option (List Nat) :=
  if c ≤ 1114111 then some (encCp c) else none

/-- Modelled from the spec: `encodeUtf8` of `CodepointCodec`
(`util::u32str2str_utf8`): each code point is mapped to its minimal UTF-8
byte form; any value above 0x10FFFF makes the whole call fail. -/
def encodeUtf8 : List Nat → Option (List Nat)
  | [] => some []
  | c :: cs =>
    match encodeCp c, encodeUtf8 cs with
    | some bs, some t => some (bs ++ t)
    | _, _ => none

/-- One continuation byte after a 2-byte lead. -/
def cont2 (b : Nat) : List Nat → Option (Nat × List Nat)
  | b1 :: rest1 =>
    if isCont b1 then some ((b - 192) * 64 + (b1 - 128), rest1) else none
  | [] => none

/-- Two continuation bytes after a 3-byte lead. -/
def cont3 (b : Nat) : List Nat → Option (Nat × List Nat)
  | b1 :: b2 :: rest2 =>
    if isCont b1 ∧ isCont b2 then
      some ((b - 224) * 4096 + (b1 - 128) * 64 + (b2 - 128), rest2)
    else none
  | _ => none

/-- Three continuation bytes after a 4-byte lead. -/
def cont4 (b : Nat) : List Nat → Option (Nat × List Nat)
  | b1 :: b2 :: b3 :: rest3 =>
    if isCont b1 ∧ isCont b2 ∧ isCont b3 then
      some ((b - 240) * 262144 + (b1 - 128) * 4096 + (b2 - 128) * 64 + (b3 - 128),
        rest3)
    else none
  | _ => none

/-- Modelled from the spec: one step of `CodepointCodec` decoding
(`util::str2u32str_utf8`, implementation not in src): read a 1-4 byte UTF-8
header and its continuation bytes, returning the scalar and the remaining
bytes; `none` on a truncated sequence, a non-continuation byte where a
continuation is expected, or a continuation byte in lead position. -/
def decodeStep : List Nat → Option (Nat × List Nat)
  | [] => none
  | b :: rest =>
    if b < 128 then some (b, rest)
    else if b < 192 then none
    else if b < 224 then cont2 b rest
    else if b < 240 then cont3 b rest
    else if b < 248 then cont4 b rest
    else none

/-- Decode loop with explicit fuel (one unit per decoded code point). -/
def decodeLoop : Nat → List Nat → Option (List Nat)
  | _, [] => some []
  | 0, _ :: _ => none
  | fuel + 1, b :: rest =>
    match decodeStep (b :: rest) with
    | some (c, r) => (decodeLoop fuel r).map (fun t => c :: t)
    | none => none

/-- Modelled from the spec: `decodeUtf8` of `CodepointCodec`: walk the bytes
left to right decoding one code point at a time; each step consumes at least
one byte, so `length` units of fuel always suffice. -/
def decodeUtf8 (l : List Nat) : Option (List Nat) :=
  decodeLoop l.length l

/-- Concatenation of a per-element byte translation. -/
def flatCp (f : Nat → List Nat) : List Nat → List Nat
  | [] => []
  | c :: cs => f c ++ flatCp f cs

/-- Modelled from the spec: the backward scan of `util::crop_utf8`
(implementation not in src): while the byte at the position exists and is a
continuation byte, move back one byte. -/
def backOff (bytes : List Nat) : Nat → Nat
  | 0 => 0
  | p + 1 =>
    if p + 1 < bytes.length ∧ isCont (bytes.getD (p + 1) 0) then
      backOff bytes p
    else p + 1

/-- Modelled from the spec: `util::crop_utf8` (implementation not in src):
start at `min maxBytes length` and back off over continuation bytes. -/
def cropUtf8 (bytes : List Nat) (maxBytes : Nat) : Nat :=
  backOff bytes (min maxBytes bytes.length)

theorem cont2_len {b : Nat} {l : List Nat} {c : Nat} {r : List Nat}
    (h : cont2 b l = some (c, r)) : l.length = r.length + 1 := by
  rcases l with _ | ⟨b1, rest1⟩
  · simp [cont2] at h
  · simp only [cont2] at h
    split at h
    · simp only [Option.some.injEq, Prod.mk.injEq] at h
      obtain ⟨-, h2⟩ := h
      subst h2
      simp
    · cases h

theorem cont3_len {b : Nat} {l : List Nat} {c : Nat} {r : List Nat}
    (h : cont3 b l = some (c, r)) : l.length = r.length + 2 := by
  rcases l with _ | ⟨b1, _ | ⟨b2, rest2⟩⟩
  · simp [cont3] at h
  · simp [cont3] at h
  · simp only [cont3] at h
    split at h
    · simp only [Option.some.injEq, Prod.mk.injEq] at h
      obtain ⟨-, h2⟩ := h
      subst h2
      simp
    · cases h

theorem cont4_len {b : Nat} {l : List Nat} {c : Nat} {r : List Nat}
    (h : cont4 b l = some (c, r)) : l.length = r.length + 3 := by
  rcases l with _ | ⟨b1, _ | ⟨b2, _ | ⟨b3, rest3⟩⟩⟩
  · simp [cont4] at h
  · simp [cont4] at h
  · simp [cont4] at h
  · simp only [cont4] at h
    split at h
    · simp only [Option.some.injEq, Prod.mk.injEq] at h
      obtain ⟨-, h2⟩ := h
      subst h2
      simp
    · cases h

theorem decodeStep_len {l : List Nat} {c : Nat} {r : List Nat}
    (h : decodeStep l = some (c, r)) : r.length < l.length := by
  rcases l with _ | ⟨b, rest⟩
  · simp [decodeStep] at h
  · simp only [decodeStep] at h
    split at h
    · simp only [Option.some.injEq, Prod.mk.injEq] at h
      obtain ⟨-, h2⟩ := h
      subst h2
      simp
    · split at h
      · cases h
      · split at h
        · have := cont2_len h
          simp only [List.length_cons]
          omega
        · split at h
          · have := cont3_len h
            simp only [List.length_cons]
            omega
          · split at h
            · have := cont4_len h
              simp only [List.length_cons]
              omega
            · cases h

theorem decodeLoop_nil (f : Nat) : decodeLoop f [] = some [] := by
  cases f <;> rfl

theorem decodeLoop_fuel : ∀ (f : Nat) (l : List Nat), l.length ≤ f →
    decodeLoop f l = decodeUtf8 l := by
  intro f
  induction f using Nat.strong_induction_on with
  | _ f ih =>
    intro l hl
    rcases l with _ | ⟨b, rest⟩
    · rw [decodeLoop_nil]
      rfl
    · rcases f with _ | f
      · simp at hl
      · rw [decodeUtf8]
        simp only [List.length_cons]
        rw [decodeLoop, decodeLoop]
        cases hs : decodeStep (b :: rest) with
        | none => rfl
        | some cr =>
          obtain ⟨c, r⟩ := cr
          have hr : r.length < rest.length + 1 := by
            have := decodeStep_len hs
            simpa using this
          have hlf : rest.length + 1 ≤ f + 1 := by simpa using hl
          have h1 : decodeLoop f r = decodeUtf8 r :=
            ih f (by omega) r (by omega)
          have h2 : decodeLoop rest.length r = decodeUtf8 r :=
            ih rest.length (by omega) r (by omega)
          dsimp only
          rw [h1, h2]

theorem decodeUtf8_nil : decodeUtf8 [] = some [] := rfl

theorem decodeUtf8_some_step {l : List Nat} {c : Nat} {r : List Nat}
    (h : decodeStep l = some (c, r)) :
    decodeUtf8 l = (decodeUtf8 r).map (fun t => c :: t) := by
  rcases l with _ | ⟨b, rest⟩
  · simp [decodeStep] at h
  · have hr : r.length ≤ rest.length := by
      have := decodeStep_len h
      simp at this
      omega
    rw [decodeUtf8]
    simp only [List.length_cons]
    rw [decodeLoop, h]
    dsimp only
    rw [decodeLoop_fuel rest.length r hr]

theorem decodeUtf8_none_step {l : List Nat} (hne : l ≠ [])
    (h : decodeStep l = none) : decodeUtf8 l = none := by
  rcases l with _ | ⟨b, rest⟩
  · exact absurd rfl hne
  · rw [decodeUtf8]
    simp only [List.length_cons]
    rw [decodeLoop, h]

theorem decodeStep_encCp (c : Nat) (hc : c ≤ 1114111) (t : List Nat) :
    decodeStep (encCp c ++ t) = some (c, t) := by
  by_cases h1 : c < 128
  · rw [encCp, if_pos h1, List.cons_append, List.nil_append, decodeStep,
      if_pos h1]
  · by_cases h2 : c < 2048
    · rw [encCp, if_neg h1, if_pos h2]
      simp only [List.cons_append, List.nil_append]
      rw [decodeStep, if_neg (by omega), if_neg (by omega),
        if_pos (show 192 + c / 64 < 224 by omega), cont2,
        if_pos (show isCont (128 + c % 64) from ⟨by omega, by omega⟩)]
      have : (192 + c / 64 - 192) * 64 + (128 + c % 64 - 128) = c := by omega
      rw [this]
    · by_cases h3 : c < 65536
      · rw [encCp, if_neg h1, if_neg h2, if_pos h3]
        simp only [List.cons_append, List.nil_append]
        have m1 : ¬224 + c / 4096 < 128 := by omega
        have m2 : ¬224 + c / 4096 < 192 := by omega
        have m3 : ¬224 + c / 4096 < 224 := by omega
        rw [decodeStep, if_neg m1, if_neg m2, if_neg m3,
          if_pos (show 224 + c / 4096 < 240 by omega), cont3,
          if_pos (show isCont (128 + c / 64 % 64) ∧ isCont (128 + c % 64) from
            ⟨⟨by omega, by omega⟩, ⟨by omega, by omega⟩⟩)]
        have : (224 + c / 4096 - 224) * 4096 + (128 + c / 64 % 64 - 128) * 64 +
            (128 + c % 64 - 128) = c := by omega
        rw [this]
      · rw [encCp, if_neg h1, if_neg h2, if_neg h3]
        simp only [List.cons_append, List.nil_append]
        have k1 : ¬240 + c / 262144 < 128 := by omega
        have k2 : ¬240 + c / 262144 < 192 := by omega
        have k3 : ¬240 + c / 262144 < 224 := by omega
        have k4 : ¬240 + c / 262144 < 240 := by omega
        rw [decodeStep, if_neg k1, if_neg k2, if_neg k3,
          if_neg k4, if_pos (show 240 + c / 262144 < 248 by omega), cont4,
          if_pos (show isCont (128 + c / 4096 % 64) ∧ isCont (128 + c / 64 % 64) ∧
              isCont (128 + c % 64) from
            ⟨⟨by omega, by omega⟩, ⟨by omega, by omega⟩, ⟨by omega, by omega⟩⟩)]
        have : (240 + c / 262144 - 240) * 262144 + (128 + c / 4096 % 64 - 128) * 4096 +
            (128 + c / 64 % 64 - 128) * 64 + (128 + c % 64 - 128) = c := by omega
        rw [this]

theorem decode_encCp (c : Nat) (hc : c ≤ 1114111) (t : List Nat) :
    decodeUtf8 (encCp c ++ t) = (decodeUtf8 t).map (fun l => c :: l) :=
  decodeUtf8_some_step (decodeStep_encCp c hc t)

theorem encodeUtf8_eq_flat (cs : List Nat) (h : ∀ c ∈ cs, c ≤ 1114111) :
    encodeUtf8 cs = some (flatCp encCp cs) := by
  induction cs with
  | nil => rfl
  | cons c cs ih =>
    have hc : c ≤ 1114111 := h c (List.mem_cons_self c cs)
    have ht := ih (fun x hx => h x (List.mem_cons_of_mem c hx))
    simp only [encodeUtf8, encodeCp, if_pos hc, ht, flatCp]

theorem decode_flat_encCp (cs : List Nat) (h : ∀ c ∈ cs, c ≤ 1114111) :
    decodeUtf8 (flatCp encCp cs) = some cs := by
  induction cs with
  | nil => rfl
  | cons c cs ih =>
    have hc : c ≤ 1114111 := h c (List.mem_cons_self c cs)
    have ht := ih (fun x hx => h x (List.mem_cons_of_mem c hx))
    simp only [flatCp, decode_encCp c hc, ht, Option.map_some']

/-- A high surrogate code unit (0xD800-0xDBFF). -/
def isHigh (u : Nat) : Prop := 55296 ≤ u ∧ u < 56320

instance (u : Nat) : Decidable (isHigh u) :=
  inferInstanceAs (Decidable (55296 ≤ u ∧ u < 56320))

/-- A low surrogate code unit (0xDC00-0xDFFF). -/
def isLow (u : Nat) : Prop := 56320 ≤ u ∧ u < 57344

instance (u : Nat) : Decidable (isLow u) :=
  inferInstanceAs (Decidable (56320 ≤ u ∧ u < 57344))

/-- Combine a high/low surrogate pair into a supplementary scalar value. -/
def combineSurr (hi lo : Nat) : Nat := 65536 + (hi - 55296) * 1024 + (lo - 56320)

/-- Append under `Option`: both encodings must succeed. -/
def obind2 (a b : Option (List Nat)) : Option (List Nat) :=
  match a, b with
  | some x, some y => some (x ++ y)
  | _, _ => none

/-- Modelled from the spec: `encodeWide` of `WideCodec` at width 16
(`util::wstr2str_utf8`, implementation not in src): a high surrogate
immediately followed by a low surrogate is combined into one supplementary
scalar (consuming both units); any other unit — lone surrogates included —
is encoded directly as its raw 16-bit value via the UTF-8 multi-byte
scheme. -/
def encodeWide16 : List Nat → Option (List Nat)
  | [] => some []
  | [u] => encodeCp u
  | u :: l :: rest =>
    if isHigh u ∧ isLow l then
      obind2 (encodeCp (combineSurr u l)) (encodeWide16 rest)
    else
      obind2 (encodeCp u) (encodeWide16 (l :: rest))

/-- The code-point sequence produced by the width-16 wide encoder before
byte serialization. -/
def wideToCodepoints : List Nat → List Nat
  | [] => []
  | [u] => [u]
  | u :: l :: rest =>
    if isHigh u ∧ isLow l then combineSurr u l :: wideToCodepoints rest
    else u :: wideToCodepoints (l :: rest)

/-- Modelled from the spec: the decoder splits every scalar above 0xFFFF
back into a high/low surrogate pair; surrogate-range scalars are emitted
as-is; everything else passes through unchanged. -/
def splitCp (c : Nat) : List Nat :=
  if 65535 < c then
    [55296 + (c - 65536) / 1024, 56320 + (c - 65536) % 1024]
  else [c]

/-- Modelled from the spec: `decodeWide` of `WideCodec` at width 16
(`util::str2wstr_utf8`): decode UTF-8 as in `CodepointCodec`, then split
supplementary scalars into surrogate pairs. -/
def decodeWide16 (bytes : List Nat) : Option (List Nat) :=
  (decodeUtf8 bytes).map (fun cs => flatCp splitCp cs)

/-- Modelled from the spec: width-parameterized wide encoder; at width 32
the codec degenerates to `CodepointCodec`. -/
def encodeWide (units : List Nat) (width : Nat) : Option (List Nat) :=
  if width = 32 then encodeUtf8 units else encodeWide16 units

/-- Modelled from the spec: width-parameterized wide decoder. -/
def decodeWide (bytes : List Nat) (width : Nat) : Option (List Nat) :=
  if width = 32 then decodeUtf8 bytes else decodeWide16 bytes

theorem combineSurr_le {u l : Nat} (hu : isHigh u) (hl : isLow l) :
    65535 < combineSurr u l ∧ combineSurr u l ≤ 1114111 := by
  obtain ⟨h1, h2⟩ := hu
  obtain ⟨h3, h4⟩ := hl
  rw [combineSurr]
  omega

theorem wideToCp_bounds (units : List Nat) (h : ∀ u ∈ units, u < 65536) :
    ∀ c ∈ wideToCodepoints units, c ≤ 1114111 := by
  induction units using wideToCodepoints.induct with
  | case1 =>
    intro c hc
    simp [wideToCodepoints] at hc
  | case2 u =>
    intro c hc
    simp only [wideToCodepoints, List.mem_singleton] at hc
    subst hc
    have := h c (by simp)
    omega
  | case3 u l rest hcond ih =>
    intro c hc
    rw [wideToCodepoints, if_pos hcond] at hc
    rcases List.mem_cons.mp hc with hc | hc
    · rw [hc]
      exact (combineSurr_le hcond.1 hcond.2).2
    · exact ih (fun x hx => h x (by simp [hx])) c hc
  | case4 u l rest hcond ih =>
    intro c hc
    rw [wideToCodepoints, if_neg hcond] at hc
    rcases List.mem_cons.mp hc with hc | hc
    · rw [hc]
      have := h u (by simp)
      omega
    · exact ih (fun x hx => h x (by simp at hx ⊢; tauto)) c hc

theorem encodeWide16_eq_flat (units : List Nat) (h : ∀ u ∈ units, u < 65536) :
    encodeWide16 units = some (flatCp encCp (wideToCodepoints units)) := by
  induction units using wideToCodepoints.induct with
  | case1 => rfl
  | case2 u =>
    have hu : u ≤ 1114111 := by
      have := h u (by simp)
      omega
    rw [encodeWide16, wideToCodepoints, encodeCp, if_pos hu]
    simp [flatCp]
  | case3 u l rest hcond ih =>
    have hc := combineSurr_le hcond.1 hcond.2
    rw [encodeWide16, if_pos hcond, wideToCodepoints, if_pos hcond,
      encodeCp, if_pos hc.2, ih (fun x hx => h x (by simp [hx]))]
    rfl
  | case4 u l rest hcond ih =>
    have hu : u ≤ 1114111 := by
      have := h u (by simp)
      omega
    rw [encodeWide16, if_neg hcond, wideToCodepoints, if_neg hcond,
      encodeCp, if_pos hu, ih (fun x hx => h x (by simp at hx ⊢; tauto))]
    rfl

theorem splitCp_combine {u l : Nat} (hu : isHigh u) (hl : isLow l) :
    splitCp (combineSurr u l) = [u, l] := by
  obtain ⟨h1, h2⟩ := hu
  obtain ⟨h3, h4⟩ := hl
  rw [splitCp, if_pos (combineSurr_le ⟨h1, h2⟩ ⟨h3, h4⟩).1, combineSurr]
  have e1 : 55296 + (65536 + (u - 55296) * 1024 + (l - 56320) - 65536) / 1024 = u := by
    omega
  have e2 : 56320 + (65536 + (u - 55296) * 1024 + (l - 56320) - 65536) % 1024 = l := by
    omega
  rw [e1, e2]

theorem splitCp_small {u : Nat} (h : u < 65536) : splitCp u = [u] := by
  rw [splitCp, if_neg (by omega)]

theorem flat_split_wideToCp (units : List Nat) (h : ∀ u ∈ units, u < 65536) :
    flatCp splitCp (wideToCodepoints units) = units := by
  induction units using wideToCodepoints.induct with
  | case1 => rfl
  | case2 u =>
    rw [wideToCodepoints, flatCp, flatCp, splitCp_small (h u (by simp))]
    rfl
  | case3 u l rest hcond ih =>
    rw [wideToCodepoints, if_pos hcond, flatCp,
      splitCp_combine hcond.1 hcond.2, ih (fun x hx => h x (by simp [hx]))]
    rfl
  | case4 u l rest hcond ih =>
    rw [wideToCodepoints, if_neg hcond, flatCp, splitCp_small (h u (by simp)),
      ih (fun x hx => h x (by simp at hx ⊢; tauto))]
    rfl

/-- C5: for every sequence of code points in [0, 0x10FFFF], decoding the
UTF-8 bytes produced by the code-point encoder yields the sequence back:
`decodeUtf8 (encodeUtf8 cs) = cs`. -/
theorem utf8_roundtrip (cs : List Nat) (h : ∀ c ∈ cs, c ≤ 1114111) :
    ∃ bs, encodeUtf8 cs = some bs ∧ decodeUtf8 bs = some cs :=
  ⟨flatCp encCp cs, encodeUtf8_eq_flat cs h, decode_flat_encCp cs h⟩

/-- Witness for C5 at a concrete input containing a 1-, 2-, 3- and 4-byte
code point as well as a lone surrogate value. -/
theorem utf8_roundtrip_witness :
    (∀ c ∈ [65, 955, 55296, 1114111], c ≤ 1114111) ∧
      ∃ bs, encodeUtf8 [65, 955, 55296, 1114111] = some bs ∧
        decodeUtf8 bs = some [65, 955, 55296, 1114111] :=
  ⟨by decide, utf8_roundtrip [65, 955, 55296, 1114111] (by decide)⟩

/-- C1: for every sequence of 16-bit code units — lone or ill-ordered
surrogates included — decoding the bytes produced by `encodeWide` at width
16 yields the original unit sequence exactly. -/
theorem wide_roundtrip_16 (units : List Nat) (h : ∀ u ∈ units, u < 65536) :
    ∃ bs, encodeWide units 16 = some bs ∧ decodeWide bs 16 = some units := by
  refine ⟨flatCp encCp (wideToCodepoints units), ?_, ?_⟩
  · rw [encodeWide, if_neg (by decide)]
    exact encodeWide16_eq_flat units h
  · rw [decodeWide, if_neg (by decide), decodeWide16,
      decode_flat_encCp _ (wideToCp_bounds units h), Option.map_some',
      flat_split_wideToCp units h]

/-- Witness for C1 at a concrete unit sequence containing a well-formed
surrogate pair, a lone low surrogate, surrogates in the wrong order and an
ordinary character. -/
theorem wide_roundtrip_16_witness :
    (∀ u ∈ [56320, 55296, 56320, 55297, 65], u < 65536) ∧
      ∃ bs, encodeWide [56320, 55296, 56320, 55297, 65] 16 = some bs ∧
        decodeWide bs 16 = some [56320, 55296, 56320, 55297, 65] :=
  ⟨by decide, wide_roundtrip_16 [56320, 55296, 56320, 55297, 65] (by decide)⟩

theorem encCp_len4 {c : Nat} (h1 : 65535 < c) (h2 : c ≤ 1114111) :
    (encCp c).length = 4 := by
  have m1 : ¬c < 128 := by omega
  have m2 : ¬c < 2048 := by omega
  have m3 : ¬c < 65536 := by omega
  rw [encCp, if_neg m1, if_neg m2, if_neg m3]
  rfl

/-- C6: structure of the width-16 wide codec. Encoding processes units left
to right: a high surrogate immediately followed by a low surrogate is
combined into one supplementary scalar encoded as a 4-byte UTF-8 sequence,
consuming both units; any other unit — lone surrogates included — is
encoded directly as its raw 16-bit value; decoding splits every scalar
above 0xFFFF back into a high/low surrogate pair and emits surrogate-range
scalars as-is. -/
theorem wide_codec_structure :
    (∀ u l rest, isHigh u → isLow l →
      encodeWide (u :: l :: rest) 16 =
        obind2 (encodeCp (combineSurr u l)) (encodeWide rest 16) ∧
      encodeCp (combineSurr u l) = some (encCp (combineSurr u l)) ∧
      (encCp (combineSurr u l)).length = 4) ∧
    (∀ u rest, u < 65536 →
      (∀ l rest1, rest = l :: rest1 → ¬(isHigh u ∧ isLow l)) →
      encodeWide (u :: rest) 16 = obind2 (encodeCp u) (encodeWide rest 16)) ∧
    (∀ c, 65535 < c → c ≤ 1114111 →
      splitCp c = [55296 + (c - 65536) / 1024, 56320 + (c - 65536) % 1024] ∧
      isHigh (55296 + (c - 65536) / 1024) ∧
      isLow (56320 + (c - 65536) % 1024) ∧
      combineSurr (55296 + (c - 65536) / 1024) (56320 + (c - 65536) % 1024) = c) ∧
    (∀ c, 55296 ≤ c → c < 57344 → splitCp c = [c]) ∧
    (∀ bytes cs, decodeUtf8 bytes = some cs →
      decodeWide bytes 16 = some (flatCp splitCp cs)) := by
  refine ⟨?_, ?_, ?_, ?_, ?_⟩
  · intro u l rest hu hl
    have hc := combineSurr_le hu hl
    refine ⟨?_, ?_, encCp_len4 hc.1 hc.2⟩
    · rw [encodeWide, if_neg (by decide), encodeWide, if_neg (by decide),
        encodeWide16, if_pos ⟨hu, hl⟩]
    · rw [encodeCp, if_pos hc.2]
  · intro u rest hu hcond
    rcases rest with _ | ⟨l, rest1⟩
    · rw [encodeWide, if_neg (by decide), encodeWide, if_neg (by decide)]
      have e1 : encodeWide16 ([] : List Nat) = some [] := rfl
      have e2 : encodeWide16 [u] = encodeCp u := rfl
      rw [e1, e2, encodeCp, if_pos (show u ≤ 1114111 by omega), obind2]
      simp
    · have : ¬(isHigh u ∧ isLow l) := hcond l rest1 rfl
      rw [encodeWide, if_neg (by decide), encodeWide, if_neg (by decide),
        encodeWide16, if_neg this]
  · intro c h1 h2
    refine ⟨?_, ⟨by omega, by omega⟩, ⟨by omega, by omega⟩, by rw [combineSurr]; omega⟩
    rw [splitCp, if_pos h1]
  · intro c h1 h2
    rw [splitCp, if_neg (by omega)]
  · intro bytes cs h
    rw [decodeWide, if_neg (by decide), decodeWide16, h, Option.map_some']

/-- Witness for C6: all five parts instantiated at concrete inputs — the
surrogate pair (0xD800, 0xDC00), the lone unit 0xD801 followed by the
non-low unit 65, the supplementary scalar 0x10000, the surrogate-range
scalar 0xD800, and the byte string [65]. -/
theorem wide_codec_structure_witness :
    (encodeWide [55296, 56320] 16 =
        obind2 (encodeCp (combineSurr 55296 56320)) (encodeWide [] 16) ∧
      encodeCp (combineSurr 55296 56320) = some (encCp (combineSurr 55296 56320)) ∧
      (encCp (combineSurr 55296 56320)).length = 4) ∧
    (encodeWide [55297, 65] 16 = obind2 (encodeCp 55297) (encodeWide [65] 16)) ∧
    (splitCp 65536 = [55296 + (65536 - 65536) / 1024, 56320 + (65536 - 65536) % 1024] ∧
      isHigh (55296 + (65536 - 65536) / 1024) ∧
      isLow (56320 + (65536 - 65536) % 1024) ∧
      combineSurr (55296 + (65536 - 65536) / 1024) (56320 + (65536 - 65536) % 1024) =
        65536) ∧
    (splitCp 55296 = [55296]) ∧
    (decodeWide [65] 16 = some (flatCp splitCp [65])) :=
  ⟨wide_codec_structure.1 55296 56320 [] (by decide) (by decide),
    wide_codec_structure.2.1 55297 [65] (by decide)
      (fun l rest1 he => by
        simp only [List.cons.injEq] at he
        rw [he.1.symm]
        decide),
    wide_codec_structure.2.2.1 65536 (by decide) (by decide),
    wide_codec_structure.2.2.2.1 55296 (by decide) (by decide),
    wide_codec_structure.2.2.2.2 [65] [65] (by decide)⟩

/-- Modelled from the spec: the standard Base64 alphabet
(`A-Z a-z 0-9 + /`), as ASCII codes. -/
def b64CharStd (i : Nat) : Nat :=
  if i < 26 then 65 + i
  else if i < 52 then 97 + (i - 26)
  else if i < 62 then 48 + (i - 52)
  else if i = 62 then 43
  else 47

/-- Modelled from the spec: the URL-safe Base64 alphabet
(`A-Z a-z 0-9 - _`), as ASCII codes. -/
def b64CharUrl (i : Nat) : Nat :=
  if i < 26 then 65 + i
  else if i < 52 then 97 + (i - 26)
  else if i < 62 then 48 + (i - 52)
  else if i = 62 then 45
  else 95

/-- Inverse lookup of the standard alphabet; `none` outside it. -/
def b64DecStd (c : Nat) : Option Nat :=
  if 65 ≤ c ∧ c ≤ 90 then some (c - 65)
  else if 97 ≤ c ∧ c ≤ 122 then some (c - 71)
  else if 48 ≤ c ∧ c ≤ 57 then some (c + 4)
  else if c = 43 then some 62
  else if c = 47 then some 63
  else none

/-- Inverse lookup of the URL-safe alphabet; `none` outside it. -/
def b64DecUrl (c : Nat) : Option Nat :=
  if 65 ≤ c ∧ c ≤ 90 then some (c - 65)
  else if 97 ≤ c ∧ c ≤ 122 then some (c - 71)
  else if 48 ≤ c ∧ c ≤ 57 then some (c + 4)
  else if c = 45 then some 62
  else if c = 95 then some 63
  else none

/-- Modelled from the spec: Base64 encoding (`util::base64_encode` and
`util::base64_urlsafe_encode`, implementations not in src): 3-byte groups
map to 4 symbols via 6-bit slicing; a 1-byte remainder produces 2 symbols,
a 2-byte remainder 3 symbols; the standard alphabet pads with `=` (61) to
a multiple of 4 symbols, the URL-safe alphabet omits padding. -/
def base64EncodeWith (ch : Nat → Nat) (pad : Bool) : List Nat → List Nat
  | b0 :: b1 :: b2 :: rest =>
    ch (b0 / 4) :: ch (b0 % 4 * 16 + b1 / 16) :: ch (b1 % 16 * 4 + b2 / 64) ::
      ch (b2 % 64) :: base64EncodeWith ch pad rest
  | [b0, b1] =>
    [ch (b0 / 4), ch (b0 % 4 * 16 + b1 / 16), ch (b1 % 16 * 4)] ++
      (if pad then [61] else [])
  | [b0] => [ch (b0 / 4), ch (b0 % 4 * 16)] ++ (if pad then [61, 61] else [])
  | [] => []

/-- Decode a padded/unpadded 2-symbol tail into one byte. -/
def b64DecodeTail2 (dec : Nat → Option Nat) (c0 c1 : Nat) :
    Except StrUtilError (List Nat) :=
  match dec c0, dec c1 with
  | some s0, some s1 => .ok [s0 * 4 + s1 / 16]
  | _, _ => .error .invalidBase64

/-- Decode a padded/unpadded 3-symbol tail into two bytes. -/
def b64DecodeTail3 (dec : Nat → Option Nat) (c0 c1 c2 : Nat) :
    Except StrUtilError (List Nat) :=
  match dec c0, dec c1, dec c2 with
  | some s0, some s1, some s2 =>
    .ok [s0 * 4 + s1 / 16, s1 % 16 * 16 + s2 / 4]
  | _, _, _ => .error .invalidBase64

/-- Decode a full 4-symbol group into three bytes. -/
def b64Group (dec : Nat → Option Nat) (c0 c1 c2 c3 : Nat) : Option (List Nat) :=
  match dec c0, dec c1, dec c2, dec c3 with
  | some s0, some s1, some s2, some s3 =>
    some [s0 * 4 + s1 / 16, s1 % 16 * 16 + s2 / 4, s2 % 4 * 64 + s3]
  | _, _, _, _ => none

/-- Prepend a decoded group to the decoding of the remaining text. -/
def egroup (g : Option (List Nat)) (r : Except StrUtilError (List Nat)) :
    Except StrUtilError (List Nat) :=
  match g, r with
  | some bs, .ok t => .ok (bs ++ t)
  | some _, .error e => .error e
  | none, _ => .error .invalidBase64

/-- Modelled from the spec: Base64 decoding (`util::base64_decode` and
`util::base64_urlsafe_decode`, implementations not in src): 4-symbol
groups are decoded via 6-bit reassembly; `=` (61) padding is accepted only
at the very end; with `allowNoPad` (URL-safe) a trailing 2- or 3-symbol
group without padding is accepted; anything else — a symbol outside the
alphabet or a length inconsistent with the padding rule — fails with
`InvalidBase64`. -/
def base64DecodeWith (dec : Nat → Option Nat) (allowNoPad : Bool) :
    List Nat → Except StrUtilError (List Nat)
  | [] => .ok []
  | [_] => .error .invalidBase64
  | [c0, c1] =>
    if allowNoPad then b64DecodeTail2 dec c0 c1 else .error .invalidBase64
  | [c0, c1, c2] =>
    if allowNoPad then b64DecodeTail3 dec c0 c1 c2 else .error .invalidBase64
  | c0 :: c1 :: c2 :: c3 :: rest =>
    if rest = [] ∧ c3 = 61 then
      if c2 = 61 then b64DecodeTail2 dec c0 c1 else b64DecodeTail3 dec c0 c1 c2
    else
      egroup (b64Group dec c0 c1 c2 c3) (base64DecodeWith dec allowNoPad rest)

/-- Modelled from the spec: `util::base64_encode`. -/
def base64Encode (bytes : List Nat) : List Nat :=
  base64EncodeWith b64CharStd true bytes

/-- Modelled from the spec: `util::base64_decode` (padding required). -/
def base64Decode (text : List Nat) : Except StrUtilError (List Nat) :=
  base64DecodeWith b64DecStd false text

/-- Modelled from the spec: `util::base64_urlsafe_encode` (no padding). -/
def base64UrlsafeEncode (bytes : List Nat) : List Nat :=
  base64EncodeWith b64CharUrl false bytes

/-- Modelled from the spec: `util::base64_urlsafe_decode` (accepts input
with or without padding). -/
def base64UrlsafeDecode (text : List Nat) : Except StrUtilError (List Nat) :=
  base64DecodeWith b64DecUrl true text

theorem b64DecStd_char : ∀ i < 64, b64DecStd (b64CharStd i) = some i := by decide

theorem b64DecUrl_char : ∀ i < 64, b64DecUrl (b64CharUrl i) = some i := by decide

theorem b64CharStd_ne61 : ∀ i < 64, b64CharStd i ≠ 61 := by decide

theorem b64CharUrl_ne61 : ∀ i < 64, b64CharUrl i ≠ 61 := by decide

theorem b64_roundtrip_with (ch : Nat → Nat) (dec : Nat → Option Nat)
    (pad allowNoPad : Bool)
    (hdec : ∀ i < 64, dec (ch i) = some i)
    (hne : ∀ i < 64, ch i ≠ 61)
    (hpad : pad = true ∨ allowNoPad = true) :
    ∀ bs : List Nat, (∀ x ∈ bs, x < 256) →
      base64DecodeWith dec allowNoPad (base64EncodeWith ch pad bs) = .ok bs := by
  intro bs
  induction bs using base64EncodeWith.induct ch pad with
  | case1 b0 b1 b2 rest ih =>
    intro h
    have hb0 : b0 < 256 := h b0 (by simp)
    have hb1 : b1 < 256 := h b1 (by simp)
    have hb2 : b2 < 256 := h b2 (by simp)
    rw [base64EncodeWith, base64DecodeWith,
      if_neg (by
        intro hcon
        exact hne (b2 % 64) (by omega) hcon.2)]
    have d0 : dec (ch (b0 / 4)) = some (b0 / 4) := hdec _ (by omega)
    have d1 : dec (ch (b0 % 4 * 16 + b1 / 16)) = some (b0 % 4 * 16 + b1 / 16) :=
      hdec _ (by omega)
    have d2 : dec (ch (b1 % 16 * 4 + b2 / 64)) = some (b1 % 16 * 4 + b2 / 64) :=
      hdec _ (by omega)
    have d3 : dec (ch (b2 % 64)) = some (b2 % 64) := hdec _ (by omega)
    rw [b64Group, d0, d1, d2, d3]
    dsimp only
    rw [ih (fun x hx => h x (by simp [hx]))]
    rw [egroup]
    have e0 : b0 / 4 * 4 + (b0 % 4 * 16 + b1 / 16) / 16 = b0 := by omega
    have e1 : (b0 % 4 * 16 + b1 / 16) % 16 * 16 + (b1 % 16 * 4 + b2 / 64) / 4 = b1 := by
      omega
    have e2 : (b1 % 16 * 4 + b2 / 64) % 4 * 64 + b2 % 64 = b2 := by omega
    rw [e0, e1, e2]
    rfl
  | case2 b0 b1 =>
    intro h
    have hb0 : b0 < 256 := h b0 (by simp)
    have hb1 : b1 < 256 := h b1 (by simp)
    have d0 : dec (ch (b0 / 4)) = some (b0 / 4) := hdec _ (by omega)
    have d1 : dec (ch (b0 % 4 * 16 + b1 / 16)) = some (b0 % 4 * 16 + b1 / 16) :=
      hdec _ (by omega)
    have d2 : dec (ch (b1 % 16 * 4)) = some (b1 % 16 * 4) := hdec _ (by omega)
    have e0 : b0 / 4 * 4 + (b0 % 4 * 16 + b1 / 16) / 16 = b0 := by omega
    have e1 : (b0 % 4 * 16 + b1 / 16) % 16 * 16 + b1 % 16 * 4 / 4 = b1 := by omega
    by_cases hpad' : pad = true
    · rw [base64EncodeWith, if_pos hpad']
      have hlist : [ch (b0 / 4), ch (b0 % 4 * 16 + b1 / 16), ch (b1 % 16 * 4)] ++ [61] =
          ch (b0 / 4) :: ch (b0 % 4 * 16 + b1 / 16) :: ch (b1 % 16 * 4) :: 61 :: [] := by
        simp
      rw [hlist, base64DecodeWith, if_pos ⟨rfl, rfl⟩,
        if_neg (hne (b1 % 16 * 4) (by omega)), b64DecodeTail3, d0, d1, d2]
      dsimp only
      rw [e0, e1]
    · have hno : allowNoPad = true := hpad.resolve_left hpad'
      rw [base64EncodeWith, if_neg hpad', List.append_nil, base64DecodeWith,
        if_pos hno, b64DecodeTail3, d0, d1, d2]
      dsimp only
      rw [e0, e1]
  | case3 b0 =>
    intro h
    have hb0 : b0 < 256 := h b0 (by simp)
    have d0 : dec (ch (b0 / 4)) = some (b0 / 4) := hdec _ (by omega)
    have d1 : dec (ch (b0 % 4 * 16)) = some (b0 % 4 * 16) := hdec _ (by omega)
    have e0 : b0 / 4 * 4 + b0 % 4 * 16 / 16 = b0 := by omega
    by_cases hpad' : pad = true
    · rw [base64EncodeWith, if_pos hpad']
      have hlist : [ch (b0 / 4), ch (b0 % 4 * 16)] ++ [61, 61] =
          ch (b0 / 4) :: ch (b0 % 4 * 16) :: 61 :: 61 :: [] := by
        simp
      rw [hlist, base64DecodeWith, if_pos ⟨rfl, rfl⟩, if_pos rfl,
        b64DecodeTail2, d0, d1]
      dsimp only
      rw [e0]
    · have hno : allowNoPad = true := hpad.resolve_left hpad'
      rw [base64EncodeWith, if_neg hpad', List.append_nil, base64DecodeWith,
        if_pos hno, b64DecodeTail2, d0, d1]
      dsimp only
      rw [e0]
  | case4 =>
    intro h
    rfl

/-- C2: for every byte sequence of length 0 through 29, Base64 decoding
inverts Base64 encoding, both for the standard alphabet and for the
URL-safe alphabet (encode and decode using the same alphabet). -/
theorem base64_roundtrip (bs : List Nat) (_hlen : bs.length ≤ 29)
    (h : ∀ x ∈ bs, x < 256) :
    base64Decode (base64Encode bs) = .ok bs ∧
      base64UrlsafeDecode (base64UrlsafeEncode bs) = .ok bs :=
  ⟨b64_roundtrip_with b64CharStd b64DecStd true false b64DecStd_char
      b64CharStd_ne61 (Or.inl rfl) bs h,
    b64_roundtrip_with b64CharUrl b64DecUrl false true b64DecUrl_char
      b64CharUrl_ne61 (Or.inr rfl) bs h⟩

/-- Witness for C2 at a concrete 4-byte sequence (exercising both a full
3-byte group and a 1-byte remainder). -/
theorem base64_roundtrip_witness :
    ([0, 255, 77, 128] : List Nat).length ≤ 29 ∧
      (∀ x ∈ [0, 255, 77, 128], x < 256) ∧
      base64Decode (base64Encode [0, 255, 77, 128]) = .ok [0, 255, 77, 128] ∧
      base64UrlsafeDecode (base64UrlsafeEncode [0, 255, 77, 128]) =
        .ok [0, 255, 77, 128] :=
  ⟨by decide, by decide,
    base64_roundtrip [0, 255, 77, 128] (by decide) (by decide)⟩

/-- Lowercase hexadecimal digit of a value below 16. -/
def hexDig (d : Nat) : Nat := if d < 10 then 48 + d else 87 + d

/-- Exactly four lowercase hex digits of a 16-bit value. -/
def hex4 (n : Nat) : List Nat :=
  [hexDig (n / 4096 % 16), hexDig (n / 256 % 16), hexDig (n / 16 % 16),
    hexDig (n % 16)]

/-- Modelled from the spec: per-code-point escaping of `util::escape`
(implementation not in src): backslash, quote and standard control
characters map to short escapes; other printable ASCII passes through;
anything else up to 0xFFFF becomes a single lowercase four-digit
backslash-u escape; supplementary-plane code points become a
surrogate-pair pair of backslash-u escapes, mirroring the parser's
combination rule (the natural choice flagged in spec section 9). -/
def escapeCp (c : Nat) : List Nat :=
  if c = 92 then [92, 92]
  else if c = 34 then [92, 34]
  else if c = 10 then [92, 110]
  else if c = 9 then [92, 116]
  else if c = 13 then [92, 114]
  else if c = 8 then [92, 98]
  else if c = 12 then [92, 102]
  else if 32 ≤ c ∧ c ≤ 126 then [c]
  else if c ≤ 65535 then 92 :: 117 :: hex4 c
  else (92 :: 117 :: hex4 (55296 + (c - 65536) / 1024)) ++
    (92 :: 117 :: hex4 (56320 + (c - 65536) % 1024))

/-- Modelled from the spec: `util::escape` — decode the bytes as UTF-8 code
points, escape each one, optionally wrap in quote characters. -/
def escape (bytes : List Nat) (quoted : Bool) : Option (List Nat) :=
  (decodeUtf8 bytes).map (fun cs =>
    (if quoted then [34] else []) ++ flatCp escapeCp cs ++
      (if quoted then [34] else []))

/-- Value of one hex digit character (lowercase or uppercase accepted). -/
def hexVal (c : Nat) : Option Nat :=
  if 48 ≤ c ∧ c ≤ 57 then some (c - 48)
  else if 97 ≤ c ∧ c ≤ 102 then some (c - 87)
  else if 65 ≤ c ∧ c ≤ 70 then some (c - 55)
  else none

/-- Value of a four-hex-digit group. -/
def hex4Val (g1 g2 g3 g4 : Nat) : Option Nat :=
  match hexVal g1, hexVal g2, hexVal g3, hexVal g4 with
  | some w1, some w2, some w3, some w4 =>
    some (w1 * 4096 + w2 * 256 + w3 * 16 + w4)
  | _, _, _, _ => none

/-- Short escapes recognized by the literal parser: `n t r b f` and the
escaped backslash, double quote and single quote. -/
def shortEsc (e : Nat) : Option Nat :=
  if e = 110 then some 10
  else if e = 116 then some 9
  else if e = 114 then some 13
  else if e = 98 then some 8
  else if e = 102 then some 12
  else if e = 92 then some 92
  else if e = 34 then some 34
  else if e = 39 then some 39
  else none

/-- Lookahead for a second backslash-u escape holding a low surrogate
(the parser's surrogate-pair combination, spec section 4.6). -/
def tryLow : List Nat → Option (Nat × List Nat)
  | a :: b :: g1 :: g2 :: g3 :: g4 :: rest3 =>
    if a = 92 ∧ b = 117 then
      (hex4Val g1 g2 g3 g4).bind
        (fun w => if isLow w then some (w, rest3) else none)
    else none
  | _ => none

/-- One result of the literal parser's step function. -/
inductive ParseStep where
  | close
  | emit (bs : List Nat) (rest : List Nat)
  | fail (e : StrUtilError)

/-- After a high-surrogate backslash-u escape: combine with a following
low-surrogate escape if present, otherwise emit the lone surrogate. -/
def highStep (v : Nat) (rest2 : List Nat) : ParseStep :=
  match tryLow rest2 with
  | some wr => .emit (encCp (combineSurr v wr.1)) wr.2
  | none => .emit (encCp v) rest2

/-- Parse the four hex digits of a backslash-u escape and re-encode the
decoded scalar to UTF-8. -/
def uniStep : List Nat → ParseStep
  | g1 :: g2 :: g3 :: g4 :: rest2 =>
    match hex4Val g1 g2 g3 g4 with
    | some v => if isHigh v then highStep v rest2 else .emit (encCp v) rest2
    | none => .fail .invalidEscape
  | _ => .fail .invalidEscape

/-- Parse the character after a backslash. -/
def escStep : List Nat → ParseStep
  | [] => .fail .unterminatedLiteral
  | e :: rest1 =>
    match shortEsc e with
    | some v => .emit [v] rest1
    | none => if e = 117 then uniStep rest1 else .fail .invalidEscape

/-- Modelled from the spec: one step of `BasicParser::parseString`
(implementation not in src): the closing quote ends the literal, a
backslash starts an escape, anything else passes through; running out of
input is `UnterminatedLiteral`. -/
def parseStep (q : Nat) : List Nat → ParseStep
  | [] => .fail .unterminatedLiteral
  | c :: rest =>
    if c = q then .close
    else if c = 92 then escStep rest
    else .emit [c] rest

/-- Prepend emitted bytes to the rest of a parse. -/
def emapList (bs : List Nat) (r : Except StrUtilError (List Nat)) :
    Except StrUtilError (List Nat) :=
  match r with
  | .ok t => .ok (bs ++ t)
  | .error e => .error e

/-- Parser loop with explicit fuel (one unit per consumed token). -/
def parseLoop (q : Nat) : Nat → List Nat → Except StrUtilError (List Nat)
  | 0, _ => .error .unterminatedLiteral
  | fuel + 1, l =>
    match parseStep q l with
    | .close => .ok []
    | .fail e => .error e
    | .emit bs rest => emapList bs (parseLoop q fuel rest)

/-- Modelled from the spec: the body scan of `BasicParser::parseString`:
consume tokens until the matching closing quote; every step consumes at
least one character, so `length + 1` units of fuel always suffice. -/
def parseQuoted (q : Nat) (l : List Nat) : Except StrUtilError (List Nat) :=
  parseLoop q (l.length + 1) l

/-- Modelled from the spec: `parseLiteral` — the source is positioned at
the opening quote character, which also selects the closing quote. -/
def parseLiteral : List Nat → Except StrUtilError (List Nat)
  | [] => .error .unterminatedLiteral
  | qc :: rest => parseQuoted qc rest

theorem tryLow_len {l : List Nat} {w : Nat} {r : List Nat}
    (h : tryLow l = some (w, r)) : l.length = r.length + 6 := by
  rcases l with _ | ⟨a, _ | ⟨b, _ | ⟨g1, _ | ⟨g2, _ | ⟨g3, _ | ⟨g4, rest3⟩⟩⟩⟩⟩⟩
  · simp [tryLow] at h
  · simp [tryLow] at h
  · simp [tryLow] at h
  · simp [tryLow] at h
  · simp [tryLow] at h
  · simp [tryLow] at h
  · simp only [tryLow] at h
    split at h
    · cases hx : hex4Val g1 g2 g3 g4 with
      | none => rw [hx] at h; cases h
      | some w' =>
        rw [hx] at h
        simp only [Option.some_bind] at h
        split at h
        · simp only [Option.some.injEq, Prod.mk.injEq] at h
          obtain ⟨-, h2⟩ := h
          rw [h2.symm]
          simp
        · cases h
    · cases h

theorem highStep_len {v : Nat} {l bs r : List Nat}
    (h : highStep v l = .emit bs r) : r.length ≤ l.length := by
  simp only [highStep] at h
  split at h
  · rename_i wr heq
    simp only [ParseStep.emit.injEq] at h
    have := tryLow_len (w := wr.1) (r := wr.2) (by rw [heq])
    rw [h.2.symm]
    omega
  · simp only [ParseStep.emit.injEq] at h
    rw [h.2.symm]

theorem uniStep_len {l bs r : List Nat}
    (h : uniStep l = .emit bs r) : r.length + 4 ≤ l.length := by
  rcases l with _ | ⟨g1, _ | ⟨g2, _ | ⟨g3, _ | ⟨g4, rest2⟩⟩⟩⟩
  · simp [uniStep] at h
  · simp [uniStep] at h
  · simp [uniStep] at h
  · simp [uniStep] at h
  · simp only [uniStep] at h
    split at h
    · split at h
      · have := highStep_len h
        simp only [List.length_cons]
        omega
      · simp only [ParseStep.emit.injEq] at h
        rw [h.2.symm]
        simp
    · cases h

theorem escStep_len {l bs r : List Nat}
    (h : escStep l = .emit bs r) : r.length + 1 ≤ l.length := by
  rcases l with _ | ⟨e, rest1⟩
  · simp [escStep] at h
  · simp only [escStep] at h
    split at h
    · simp only [ParseStep.emit.injEq] at h
      rw [h.2.symm]
      simp
    · split at h
      · have := uniStep_len h
        simp only [List.length_cons]
        omega
      · cases h

theorem parseStep_len {q : Nat} {l bs r : List Nat}
    (h : parseStep q l = .emit bs r) : r.length < l.length := by
  rcases l with _ | ⟨c, rest⟩
  · simp [parseStep] at h
  · simp only [parseStep] at h
    split at h
    · cases h
    · split at h
      · have := escStep_len h
        simp only [List.length_cons]
        omega
      · simp only [ParseStep.emit.injEq] at h
        rw [h.2.symm]
        simp

theorem parseLoop_fuel (q : Nat) : ∀ (f : Nat) (l : List Nat), l.length < f →
    parseLoop q f l = parseQuoted q l := by
  intro f
  induction f using Nat.strong_induction_on with
  | _ f ih =>
    intro l hl
    rcases f with _ | f
    · omega
    · rw [parseQuoted, parseLoop, parseLoop]
      cases hs : parseStep q l with
      | close => rfl
      | fail e => rfl
      | emit bs rest =>
        have hr : rest.length < l.length := parseStep_len hs
        have h1 : parseLoop q f rest = parseQuoted q rest :=
          ih f (by omega) rest (by omega)
        have h2 : parseLoop q l.length rest = parseQuoted q rest :=
          ih l.length (by omega) rest (by omega)
        dsimp only
        rw [h1, h2]

theorem parseQuoted_close {q : Nat} {l : List Nat}
    (h : parseStep q l = .close) : parseQuoted q l = .ok [] := by
  rw [parseQuoted, parseLoop, h]

theorem parseQuoted_fail {q : Nat} {l : List Nat} {e : StrUtilError}
    (h : parseStep q l = .fail e) : parseQuoted q l = .error e := by
  rw [parseQuoted, parseLoop, h]

theorem parseQuoted_emit {q : Nat} {l bs rest : List Nat}
    (h : parseStep q l = .emit bs rest) :
    parseQuoted q l = emapList bs (parseQuoted q rest) := by
  rw [parseQuoted, parseLoop, h]
  dsimp only
  rw [parseLoop_fuel q l.length rest (parseStep_len h)]

theorem hexVal_hexDig : ∀ d < 16, hexVal (hexDig d) = some d := by decide

theorem hex4Val_hex4 {n : Nat} (h : n ≤ 65535) :
    hex4Val (hexDig (n / 4096 % 16)) (hexDig (n / 256 % 16))
      (hexDig (n / 16 % 16)) (hexDig (n % 16)) = some n := by
  rw [hex4Val, hexVal_hexDig _ (by omega), hexVal_hexDig _ (by omega),
    hexVal_hexDig _ (by omega), hexVal_hexDig _ (by omega)]
  dsimp only
  have : n / 4096 % 16 * 4096 + n / 256 % 16 * 256 + n / 16 % 16 * 16 + n % 16 = n := by
    omega
  rw [this]

theorem encCp_ascii {c : Nat} (h : c < 128) : encCp c = [c] := by
  rw [encCp, if_pos h]

theorem parseStep_quote (q : Nat) (rest : List Nat) :
    parseStep q (q :: rest) = .close := by
  rw [parseStep, if_pos rfl]

theorem parseStep_pass {q c : Nat} (rest : List Nat) (h1 : c ≠ q) (h2 : c ≠ 92) :
    parseStep q (c :: rest) = .emit [c] rest := by
  rw [parseStep, if_neg h1, if_neg h2]

theorem parseStep_short {q e v : Nat} (rest1 : List Nat) (hq : q ≠ 92)
    (h : shortEsc e = some v) :
    parseStep q (92 :: e :: rest1) = .emit [v] rest1 := by
  rw [parseStep, if_neg (fun hh => hq hh.symm), if_pos rfl, escStep, h]

theorem parseStep_u {q g1 g2 g3 g4 v : Nat} (rest2 : List Nat) (hq : q ≠ 92)
    (hh : hex4Val g1 g2 g3 g4 = some v) (hnh : ¬isHigh v) :
    parseStep q (92 :: 117 :: g1 :: g2 :: g3 :: g4 :: rest2) =
      .emit (encCp v) rest2 := by
  rw [parseStep, if_neg (fun hh1 => hq hh1.symm), if_pos rfl, escStep,
    show shortEsc 117 = none from rfl]
  dsimp only
  rw [if_pos rfl, uniStep, hh]
  dsimp only
  rw [if_neg hnh]

theorem parseStep_u_high_none {q g1 g2 g3 g4 v : Nat} (rest2 : List Nat)
    (hq : q ≠ 92) (hh : hex4Val g1 g2 g3 g4 = some v) (hv : isHigh v)
    (htl : tryLow rest2 = none) :
    parseStep q (92 :: 117 :: g1 :: g2 :: g3 :: g4 :: rest2) =
      .emit (encCp v) rest2 := by
  rw [parseStep, if_neg (fun hh1 => hq hh1.symm), if_pos rfl, escStep,
    show shortEsc 117 = none from rfl]
  dsimp only
  rw [if_pos rfl, uniStep, hh]
  dsimp only
  rw [if_pos hv, highStep, htl]

theorem parseStep_u_high_some {q g1 g2 g3 g4 v w : Nat} {rest2 rest3 : List Nat}
    (hq : q ≠ 92) (hh : hex4Val g1 g2 g3 g4 = some v) (hv : isHigh v)
    (htl : tryLow rest2 = some (w, rest3)) :
    parseStep q (92 :: 117 :: g1 :: g2 :: g3 :: g4 :: rest2) =
      .emit (encCp (combineSurr v w)) rest3 := by
  rw [parseStep, if_neg (fun hh1 => hq hh1.symm), if_pos rfl, escStep,
    show shortEsc 117 = none from rfl]
  dsimp only
  rw [if_pos rfl, uniStep, hh]
  dsimp only
  rw [if_pos hv, highStep, htl]

theorem tryLow_some {g1 g2 g3 g4 w : Nat} (rest3 : List Nat)
    (hh : hex4Val g1 g2 g3 g4 = some w) (hl : isLow w) :
    tryLow (92 :: 117 :: g1 :: g2 :: g3 :: g4 :: rest3) = some (w, rest3) := by
  rw [tryLow, if_pos ⟨rfl, rfl⟩, hh, Option.some_bind, if_pos hl]

theorem tryLow_none (l : List Nat)
    (h : ∀ g1 g2 g3 g4 r, l = 92 :: 117 :: g1 :: g2 :: g3 :: g4 :: r →
      ∀ w, hex4Val g1 g2 g3 g4 = some w → ¬isLow w) :
    tryLow l = none := by
  rcases l with _ | ⟨a, _ | ⟨b, _ | ⟨g1, _ | ⟨g2, _ | ⟨g3, _ | ⟨g4, rest3⟩⟩⟩⟩⟩⟩
  · rfl
  · rfl
  · rfl
  · rfl
  · rfl
  · rfl
  · by_cases hab : a = 92 ∧ b = 117
    · rw [tryLow, if_pos hab]
      cases hx : hex4Val g1 g2 g3 g4 with
      | none => rw [Option.none_bind]
      | some w =>
        rw [Option.some_bind,
          if_neg (h g1 g2 g3 g4 rest3 (by rw [hab.1, hab.2]) w hx)]
    · rw [tryLow, if_neg hab]

theorem escapeCp_short {c : Nat}
    (h : c = 92 ∨ c = 34 ∨ c = 10 ∨ c = 9 ∨ c = 13 ∨ c = 8 ∨ c = 12) :
    ∃ x, escapeCp c = [92, x] ∧ shortEsc x = some c ∧ x ≠ 117 := by
  rcases h with h | h | h | h | h | h | h <;>
    rw [h] <;> exact ⟨_, rfl, rfl, by decide⟩

theorem escapeCp_pass {c : Nat} (h1 : 32 ≤ c) (h2 : c ≤ 126) (h3 : c ≠ 92)
    (h4 : c ≠ 34) : escapeCp c = [c] := by
  have p1 : c ≠ 10 := by omega
  have p2 : c ≠ 9 := by omega
  have p3 : c ≠ 13 := by omega
  have p4 : c ≠ 8 := by omega
  have p5 : c ≠ 12 := by omega
  rw [escapeCp, if_neg h3, if_neg h4, if_neg p1, if_neg p2,
    if_neg p3, if_neg p4, if_neg p5, if_pos ⟨h1, h2⟩]

theorem escapeCp_u {c : Nat} (h : c ≤ 65535) (h3 : c ≠ 92) (h4 : c ≠ 34)
    (h5 : c ≠ 10) (h6 : c ≠ 9) (h7 : c ≠ 13) (h8 : c ≠ 8) (h9 : c ≠ 12)
    (hnp : ¬(32 ≤ c ∧ c ≤ 126)) :
    escapeCp c = 92 :: 117 :: hex4 c := by
  rw [escapeCp, if_neg h3, if_neg h4, if_neg h5, if_neg h6, if_neg h7,
    if_neg h8, if_neg h9, if_neg hnp, if_pos h]

theorem escapeCp_supp {c : Nat} (h : 65535 < c) :
    escapeCp c = (92 :: 117 :: hex4 (55296 + (c - 65536) / 1024)) ++
      (92 :: 117 :: hex4 (56320 + (c - 65536) % 1024)) := by
  have n1 : c ≠ 92 := by omega
  have n2 : c ≠ 34 := by omega
  have n3 : c ≠ 10 := by omega
  have n4 : c ≠ 9 := by omega
  have n5 : c ≠ 13 := by omega
  have n6 : c ≠ 8 := by omega
  have n7 : c ≠ 12 := by omega
  have n8 : ¬(32 ≤ c ∧ c ≤ 126) := by omega
  have n9 : ¬c ≤ 65535 := by omega
  rw [escapeCp, if_neg n1, if_neg n2, if_neg n3, if_neg n4, if_neg n5,
    if_neg n6, if_neg n7, if_neg n8, if_neg n9]

/-- No high surrogate immediately followed by a low surrogate anywhere in
the code-point sequence (such a pair would be re-combined by the literal
parser). Holds both for strict UTF-8 text (which has no surrogates at all)
and for any output of the width-16 wide encoder. -/
def noAdjHiLo : List Nat → Prop
  | u :: l :: rest => ¬(isHigh u ∧ isLow l) ∧ noAdjHiLo (l :: rest)
  | _ => True

theorem noAdjHiLo_tail {c : Nat} {cs : List Nat} (h : noAdjHiLo (c :: cs)) :
    noAdjHiLo cs := by
  rcases cs with _ | ⟨l, rest⟩
  · exact trivial
  · exact h.2

theorem noAdjHiLo_head {u l : Nat} {rest : List Nat}
    (h : noAdjHiLo (u :: l :: rest)) : ¬(isHigh u ∧ isLow l) := h.1

theorem escCp_first_u {c2 : Nat} (hb : c2 ≤ 1114111) (tail : List Nat)
    (g1 g2 g3 g4 : Nat) (r : List Nat)
    (he : escapeCp c2 ++ tail = 92 :: 117 :: g1 :: g2 :: g3 :: g4 :: r)
    (w : Nat) (hw : hex4Val g1 g2 g3 g4 = some w) :
    w = c2 ∨ isHigh w := by
  by_cases hshort : c2 = 92 ∨ c2 = 34 ∨ c2 = 10 ∨ c2 = 9 ∨ c2 = 13 ∨ c2 = 8 ∨
      c2 = 12
  · obtain ⟨x, hx1, hx2, hx3⟩ := escapeCp_short hshort
    rw [hx1] at he
    simp only [List.cons_append, List.nil_append, List.cons.injEq] at he
    exact absurd he.2.1 hx3
  · push_neg at hshort
    obtain ⟨n92, n34, n10, n9, n13, n8, n12⟩ := hshort
    by_cases hp : 32 ≤ c2 ∧ c2 ≤ 126
    · rw [escapeCp_pass hp.1 hp.2 n92 n34] at he
      simp only [List.cons_append, List.nil_append, List.cons.injEq] at he
      exact absurd he.1 n92
    · by_cases hbmp : c2 ≤ 65535
      · rw [escapeCp_u hbmp n92 n34 n10 n9 n13 n8 n12 hp, hex4] at he
        simp only [List.cons_append, List.nil_append, List.cons.injEq] at he
        obtain ⟨-, -, e1, e2, e3, e4, -⟩ := he
        rw [← e1, ← e2, ← e3, ← e4, hex4Val_hex4 hbmp] at hw
        exact Or.inl (Option.some.inj hw).symm
      · right
        rw [escapeCp_supp (by omega)] at he
        simp only [hex4, List.cons_append, List.append_assoc, List.nil_append,
          List.cons.injEq] at he
        obtain ⟨-, -, e1, e2, e3, e4, -⟩ := he
        have hhi : 55296 + (c2 - 65536) / 1024 ≤ 65535 := by omega
        rw [← e1, ← e2, ← e3, ← e4, hex4Val_hex4 hhi] at hw
        have hww := (Option.some.inj hw).symm
        rw [hww]
        exact ⟨by omega, by omega⟩

theorem parse_escList (cs : List Nat) : (∀ c ∈ cs, c ≤ 1114111) → noAdjHiLo cs →
    parseQuoted 34 (flatCp escapeCp cs ++ [34]) = .ok (flatCp encCp cs) := by
  induction cs with
  | nil =>
    intro h hadj
    rw [flatCp, List.nil_append, parseQuoted_close (parseStep_quote 34 []), flatCp]
  | cons c cs' ih =>
    intro h hadj
    have hc : c ≤ 1114111 := h c (by simp)
    have hcs' : ∀ x ∈ cs', x ≤ 1114111 := fun x hx => h x (by simp [hx])
    have IH := ih hcs' (noAdjHiLo_tail hadj)
    rw [flatCp, List.append_assoc]
    have hq92 : (34 : Nat) ≠ 92 := by decide
    by_cases hshort : c = 92 ∨ c = 34 ∨ c = 10 ∨ c = 9 ∨ c = 13 ∨ c = 8 ∨ c = 12
    · obtain ⟨x, hx1, hx2, -⟩ := escapeCp_short hshort
      rw [hx1]
      simp only [List.cons_append, List.nil_append]
      rw [parseQuoted_emit (parseStep_short _ hq92 hx2), IH, emapList, flatCp,
        encCp_ascii (by rcases hshort with h1|h1|h1|h1|h1|h1|h1 <;> omega)]
    · push_neg at hshort
      obtain ⟨n92, n34, n10, n9, n13, n8, n12⟩ := hshort
      by_cases hp : 32 ≤ c ∧ c ≤ 126
      · rw [escapeCp_pass hp.1 hp.2 n92 n34]
        simp only [List.cons_append, List.nil_append]
        rw [parseQuoted_emit (parseStep_pass _ n34 n92), IH, emapList, flatCp,
          encCp_ascii (by omega)]
      · by_cases hbmp : c ≤ 65535
        · by_cases hhigh : isHigh c
          · have htl : tryLow (flatCp escapeCp cs' ++ [34]) = none := by
              apply tryLow_none
              intro g1 g2 g3 g4 r he w hw
              cases cs' with
              | nil =>
                rw [flatCp, List.nil_append] at he
                simp at he
              | cons c2 cs'' =>
                rw [flatCp, List.append_assoc] at he
                have hb2 : c2 ≤ 1114111 := hcs' c2 (by simp)
                rcases escCp_first_u hb2 _ g1 g2 g3 g4 r he w hw with hwc | hwh
                · rw [hwc]
                  intro hlow
                  exact (noAdjHiLo_head hadj) ⟨hhigh, hlow⟩
                · intro hlow
                  obtain ⟨a1, a2⟩ := hwh
                  obtain ⟨a3, a4⟩ := hlow
                  omega
            rw [escapeCp_u hbmp n92 n34 n10 n9 n13 n8 n12 hp, hex4]
            simp only [List.cons_append, List.nil_append]
            rw [parseQuoted_emit
              (parseStep_u_high_none _ hq92 (hex4Val_hex4 hbmp) hhigh htl),
              IH, emapList, flatCp]
          · rw [escapeCp_u hbmp n92 n34 n10 n9 n13 n8 n12 hp, hex4]
            simp only [List.cons_append, List.nil_append]
            rw [parseQuoted_emit (parseStep_u _ hq92 (hex4Val_hex4 hbmp) hhigh),
              IH, emapList, flatCp]
        · have hhi_le : 55296 + (c - 65536) / 1024 ≤ 65535 := by omega
          have hlo_le : 56320 + (c - 65536) % 1024 ≤ 65535 := by omega
          have hhi : isHigh (55296 + (c - 65536) / 1024) := ⟨by omega, by omega⟩
          have hlo : isLow (56320 + (c - 65536) % 1024) := ⟨by omega, by omega⟩
          rw [escapeCp_supp (by omega)]
          simp only [hex4, List.cons_append, List.append_assoc, List.nil_append]
          have htl := tryLow_some (flatCp escapeCp cs' ++ [34])
            (hex4Val_hex4 hlo_le) hlo
          rw [parseQuoted_emit
            (parseStep_u_high_some hq92 (hex4Val_hex4 hhi_le) hhi htl),
            IH, emapList, flatCp]
          have hcomb : combineSurr (55296 + (c - 65536) / 1024)
              (56320 + (c - 65536) % 1024) = c := by
            rw [combineSurr]
            omega
          rw [hcomb]

theorem noAdjHiLo_of_no_surr (cs : List Nat)
    (h : ∀ c ∈ cs, ¬(55296 ≤ c ∧ c < 57344)) : noAdjHiLo cs := by
  induction cs with
  | nil => exact trivial
  | cons u cs ih =>
    rcases cs with _ | ⟨l, rest⟩
    · exact trivial
    · constructor
      · rintro ⟨hu, -⟩
        obtain ⟨a1, a2⟩ := hu
        exact h u (by simp) ⟨a1, by omega⟩
      · exact ih (fun c hc => h c (by simp [hc]))

theorem noAdjHiLo_cons (x : Nat) (xs : List Nat)
    (h1 : ∀ y t, xs = y :: t → ¬(isHigh x ∧ isLow y)) (h2 : noAdjHiLo xs) :
    noAdjHiLo (x :: xs) := by
  rcases xs with _ | ⟨y, t⟩
  · exact trivial
  · exact ⟨h1 y t rfl, h2⟩

theorem wideToCp_cons_head (l : Nat) (rest : List Nat) :
    (∃ t, wideToCodepoints (l :: rest) = l :: t) ∨
    (∃ v t, 65535 < v ∧ wideToCodepoints (l :: rest) = v :: t) := by
  rcases rest with _ | ⟨r0, rest1⟩
  · exact Or.inl ⟨[], rfl⟩
  · by_cases hcond : isHigh l ∧ isLow r0
    · refine Or.inr ⟨combineSurr l r0, wideToCodepoints rest1,
        (combineSurr_le hcond.1 hcond.2).1, ?_⟩
      rw [wideToCodepoints, if_pos hcond]
    · refine Or.inl ⟨wideToCodepoints (r0 :: rest1), ?_⟩
      rw [wideToCodepoints, if_neg hcond]

theorem noAdjHiLo_wideToCp (units : List Nat) :
    noAdjHiLo (wideToCodepoints units) := by
  induction units using wideToCodepoints.induct with
  | case1 => exact trivial
  | case2 u => exact trivial
  | case3 u l rest hcond ih =>
    rw [wideToCodepoints, if_pos hcond]
    apply noAdjHiLo_cons _ _ ?_ ih
    intro y t he
    rintro ⟨hh, -⟩
    have hv := (combineSurr_le hcond.1 hcond.2).1
    obtain ⟨a1, a2⟩ := hh
    rcases wideToCp_cons_head l rest with h0 | h0
    all_goals omega
  | case4 u l rest hcond ih =>
    rw [wideToCodepoints, if_neg hcond]
    apply noAdjHiLo_cons _ _ ?_ ih
    intro y t he
    rcases wideToCp_cons_head l rest with ⟨t', ht'⟩ | ⟨v, t', hv, ht'⟩
    · rw [ht'] at he
      injection he with hy htt
      rintro ⟨hh, hl⟩
      exact hcond ⟨hh, hy ▸ hl⟩
    · rw [ht'] at he
      injection he with hy htt
      rintro ⟨-, hl⟩
      obtain ⟨a1, a2⟩ := hl
      omega

theorem escape_parse_master (cs : List Nat) (h : ∀ c ∈ cs, c ≤ 1114111)
    (hadj : noAdjHiLo cs) {s : List Nat} (hs : encodeUtf8 cs = some s) :
    ∃ t, escape s true = some t ∧ parseLiteral t = .ok s := by
  have hflat : s = flatCp encCp cs := by
    have h2 := encodeUtf8_eq_flat cs h
    rw [hs] at h2
    exact Option.some.inj h2
  refine ⟨34 :: (flatCp escapeCp cs ++ [34]), ?_, ?_⟩
  · rw [escape, hflat, decode_flat_encCp cs h, Option.map_some']
    simp
  · rw [parseLiteral, parse_escList cs h hadj, hflat]

/-- C3: for every UTF-8 string `s` — both strict UTF-8 text (no surrogate
code points) and strings obtained by encoding an arbitrary 16-bit wide
string via the width-16 wide encoder — parsing the quoted literal produced
by `escape s true` reconstructs `s` exactly. -/
theorem escape_parse_roundtrip :
    (∀ cs s, (∀ c ∈ cs, c ≤ 1114111 ∧ ¬(55296 ≤ c ∧ c < 57344)) →
      encodeUtf8 cs = some s →
      ∃ t, escape s true = some t ∧ parseLiteral t = .ok s) ∧
    (∀ units s, (∀ u ∈ units, u < 65536) → encodeWide units 16 = some s →
      ∃ t, escape s true = some t ∧ parseLiteral t = .ok s) := by
  constructor
  · intro cs s h hs
    exact escape_parse_master cs (fun c hc => (h c hc).1)
      (noAdjHiLo_of_no_surr cs (fun c hc => (h c hc).2)) hs
  · intro units s h hs
    rw [encodeWide, if_neg (by decide)] at hs
    have he := encodeWide16_eq_flat units h
    rw [hs] at he
    have hflat := Option.some.inj he
    refine escape_parse_master (wideToCodepoints units)
      (wideToCp_bounds units h) (noAdjHiLo_wideToCp units) ?_
    rw [encodeUtf8_eq_flat _ (wideToCp_bounds units h), hflat]

/-- Witness for C3: a strict-UTF-8 string (Cyrillic letter + digit) and
the encoding of a surrogate pair (one 4-byte supplementary character). -/
theorem escape_parse_roundtrip_witness :
    (∀ c ∈ [1090, 53], c ≤ 1114111 ∧ ¬(55296 ≤ c ∧ c < 57344)) ∧
    encodeUtf8 [1090, 53] = some [209, 130, 53] ∧
    (∃ t, escape [209, 130, 53] true = some t ∧
      parseLiteral t = .ok [209, 130, 53]) ∧
    (∀ u ∈ [55296, 56320], u < 65536) ∧
    encodeWide [55296, 56320] 16 = some [240, 144, 128, 128] ∧
    (∃ t, escape [240, 144, 128, 128] true = some t ∧
      parseLiteral t = .ok [240, 144, 128, 128]) :=
  ⟨by decide, by decide,
    escape_parse_roundtrip.1 [1090, 53] [209, 130, 53] (by decide) (by decide),
    by decide, by decide,
    escape_parse_roundtrip.2 [55296, 56320] [240, 144, 128, 128] (by decide)
      (by decide)⟩

/-- C7: escaping the UTF-8 bytes of "тест5" with quoting yields exactly
the quoted literal with each Cyrillic letter as a lowercase four-digit
backslash-u escape and the ASCII digit 5 unescaped; and no ASCII digit or
letter is ever escaped. -/
theorem escape_digits_letters :
    escape [209, 130, 208, 181, 209, 129, 209, 130, 53] true =
      some [34, 92, 117, 48, 52, 52, 50, 92, 117, 48, 52, 51, 53,
        92, 117, 48, 52, 52, 49, 92, 117, 48, 52, 52, 50, 53, 34] ∧
    (∀ c, (48 ≤ c ∧ c ≤ 57) ∨ (65 ≤ c ∧ c ≤ 90) ∨ (97 ≤ c ∧ c ≤ 122) →
      escapeCp c = [c]) := by
  constructor
  · decide
  · intro c hc
    have hr : 32 ≤ c ∧ c ≤ 126 ∧ c ≠ 92 ∧ c ≠ 34 := by
      rcases hc with h | h | h <;> exact ⟨by omega, by omega, by omega, by omega⟩
    exact escapeCp_pass hr.1 hr.2.1 hr.2.2.1 hr.2.2.2

/-- Witness for C7 at a digit, an uppercase letter and a lowercase
letter. -/
theorem escape_digits_letters_witness :
    escapeCp 53 = [53] ∧ escapeCp 65 = [65] ∧ escapeCp 122 = [122] :=
  ⟨escape_digits_letters.2 53 (Or.inl ⟨by decide, by decide⟩),
    escape_digits_letters.2 65 (Or.inr (Or.inl ⟨by decide, by decide⟩)),
    escape_digits_letters.2 122 (Or.inr (Or.inr ⟨by decide, by decide⟩))⟩

theorem b64DecodeTail2_cases (dec : Nat → Option Nat) (c0 c1 : Nat) :
    (∃ r, b64DecodeTail2 dec c0 c1 = .ok r) ∨
      b64DecodeTail2 dec c0 c1 = .error .invalidBase64 := by
  cases h0 : dec c0 <;> cases h1 : dec c1 <;> rw [b64DecodeTail2, h0, h1] <;>
    first
      | exact Or.inr rfl
      | exact Or.inl ⟨_, rfl⟩

theorem b64DecodeTail3_cases (dec : Nat → Option Nat) (c0 c1 c2 : Nat) :
    (∃ r, b64DecodeTail3 dec c0 c1 c2 = .ok r) ∨
      b64DecodeTail3 dec c0 c1 c2 = .error .invalidBase64 := by
  cases h0 : dec c0 <;> cases h1 : dec c1 <;> cases h2 : dec c2 <;>
    rw [b64DecodeTail3, h0, h1, h2] <;>
    first
      | exact Or.inr rfl
      | exact Or.inl ⟨_, rfl⟩

theorem b64DecodeTail2_ok {dec : Nat → Option Nat} {c0 c1 : Nat} {r : List Nat}
    (h : b64DecodeTail2 dec c0 c1 = .ok r) :
    (∃ v, dec c0 = some v) ∧ (∃ v, dec c1 = some v) := by
  cases h0 : dec c0 <;> cases h1 : dec c1 <;> rw [b64DecodeTail2, h0, h1] at h <;>
    first
      | exact ⟨⟨_, rfl⟩, ⟨_, rfl⟩⟩
      | cases h

theorem b64DecodeTail3_ok {dec : Nat → Option Nat} {c0 c1 c2 : Nat} {r : List Nat}
    (h : b64DecodeTail3 dec c0 c1 c2 = .ok r) :
    (∃ v, dec c0 = some v) ∧ (∃ v, dec c1 = some v) ∧ (∃ v, dec c2 = some v) := by
  cases h0 : dec c0 <;> cases h1 : dec c1 <;> cases h2 : dec c2 <;>
    rw [b64DecodeTail3, h0, h1, h2] at h <;>
    first
      | exact ⟨⟨_, rfl⟩, ⟨_, rfl⟩, ⟨_, rfl⟩⟩
      | cases h

theorem b64Group_ok {dec : Nat → Option Nat} {c0 c1 c2 c3 : Nat} {bs : List Nat}
    (h : b64Group dec c0 c1 c2 c3 = some bs) :
    (∃ v, dec c0 = some v) ∧ (∃ v, dec c1 = some v) ∧
      (∃ v, dec c2 = some v) ∧ (∃ v, dec c3 = some v) := by
  cases h0 : dec c0 <;> cases h1 : dec c1 <;> cases h2 : dec c2 <;>
    cases h3 : dec c3 <;> rw [b64Group, h0, h1, h2, h3] at h <;>
    first
      | exact ⟨⟨_, rfl⟩, ⟨_, rfl⟩, ⟨_, rfl⟩, ⟨_, rfl⟩⟩
      | cases h

theorem egroup_ok {g : Option (List Nat)} {r : Except StrUtilError (List Nat)}
    {x : List Nat} (h : egroup g r = .ok x) :
    (∃ bs, g = some bs) ∧ (∃ t, r = .ok t) := by
  cases g <;> cases r <;> rw [egroup] at h <;>
    first
      | exact ⟨⟨_, rfl⟩, ⟨_, rfl⟩⟩
      | cases h

theorem egroup_none (r : Except StrUtilError (List Nat)) :
    egroup none r = .error .invalidBase64 := by
  cases r <;> rfl

theorem egroup_some_error (bs : List Nat) (e : StrUtilError) :
    egroup (some bs) (.error e) = .error e := rfl

theorem egroup_cases (g : Option (List Nat)) (r : Except StrUtilError (List Nat))
    (hr : (∃ t, r = .ok t) ∨ r = .error .invalidBase64) :
    (∃ x, egroup g r = .ok x) ∨ egroup g r = .error .invalidBase64 := by
  cases g with
  | none => exact Or.inr (egroup_none r)
  | some bs =>
    rcases hr with ⟨t, ht⟩ | he
    · rw [ht]
      exact Or.inl ⟨bs ++ t, rfl⟩
    · rw [he]
      exact Or.inr (egroup_some_error bs _)

theorem b64_decode_cases (dec : Nat → Option Nat) (allowNoPad : Bool) :
    ∀ text : List Nat,
      (∃ r, base64DecodeWith dec allowNoPad text = .ok r) ∨
        base64DecodeWith dec allowNoPad text = .error .invalidBase64 := by
  intro text
  induction text using base64DecodeWith.induct dec allowNoPad with
  | case1 => exact Or.inl ⟨[], rfl⟩
  | case2 c0 => exact Or.inr rfl
  | case3 c0 c1 han =>
    rw [base64DecodeWith, if_pos han]
    exact b64DecodeTail2_cases dec c0 c1
  | case4 c0 c1 han =>
    rw [base64DecodeWith, if_neg han]
    exact Or.inr rfl
  | case5 c0 c1 c2 han =>
    rw [base64DecodeWith, if_pos han]
    exact b64DecodeTail3_cases dec c0 c1 c2
  | case6 c0 c1 c2 han =>
    rw [base64DecodeWith, if_neg han]
    exact Or.inr rfl
  | case7 c0 c1 c3 rest hg =>
    rw [base64DecodeWith, if_pos hg, if_pos rfl]
    exact b64DecodeTail2_cases dec c0 c1
  | case8 c0 c1 c2 c3 rest hg h2 =>
    rw [base64DecodeWith, if_pos hg, if_neg h2]
    exact b64DecodeTail3_cases dec c0 c1 c2
  | case9 c0 c1 c2 c3 rest hg ih =>
    rw [base64DecodeWith, if_neg hg]
    exact egroup_cases _ _ ih

theorem b64_decode_ok_chars (dec : Nat → Option Nat) (allowNoPad : Bool) :
    ∀ (text : List Nat) (r : List Nat),
      base64DecodeWith dec allowNoPad text = .ok r →
      ∀ c ∈ text, c = 61 ∨ ∃ v, dec c = some v := by
  intro text
  induction text using base64DecodeWith.induct dec allowNoPad with
  | case1 =>
    intro r h c hc
    simp at hc
  | case2 c0 =>
    intro r h
    rw [base64DecodeWith] at h
    cases h
  | case3 c0 c1 han =>
    intro r h c hc
    rw [base64DecodeWith, if_pos han] at h
    have hd := b64DecodeTail2_ok h
    simp only [List.mem_cons, List.not_mem_nil, or_false] at hc
    rcases hc with hc | hc
    · exact Or.inr (hc ▸ hd.1)
    · exact Or.inr (hc ▸ hd.2)
  | case4 c0 c1 han =>
    intro r h
    rw [base64DecodeWith, if_neg han] at h
    cases h
  | case5 c0 c1 c2 han =>
    intro r h c hc
    rw [base64DecodeWith, if_pos han] at h
    have hd := b64DecodeTail3_ok h
    simp only [List.mem_cons, List.not_mem_nil, or_false] at hc
    rcases hc with hc | hc | hc
    · exact Or.inr (hc ▸ hd.1)
    · exact Or.inr (hc ▸ hd.2.1)
    · exact Or.inr (hc ▸ hd.2.2)
  | case6 c0 c1 c2 han =>
    intro r h
    rw [base64DecodeWith, if_neg han] at h
    cases h
  | case7 c0 c1 c3 rest hg =>
    intro r h c hc
    rw [base64DecodeWith, if_pos hg, if_pos rfl] at h
    have hd := b64DecodeTail2_ok h
    simp only [List.mem_cons] at hc
    rcases hc with hc | hc | hc | hc | hc
    · exact Or.inr (hc ▸ hd.1)
    · exact Or.inr (hc ▸ hd.2)
    · exact Or.inl hc
    · exact Or.inl (hc.trans hg.2)
    · rw [hg.1] at hc
      simp at hc
  | case8 c0 c1 c2 c3 rest hg h2 =>
    intro r h c hc
    rw [base64DecodeWith, if_pos hg, if_neg h2] at h
    have hd := b64DecodeTail3_ok h
    simp only [List.mem_cons] at hc
    rcases hc with hc | hc | hc | hc | hc
    · exact Or.inr (hc ▸ hd.1)
    · exact Or.inr (hc ▸ hd.2.1)
    · exact Or.inr (hc ▸ hd.2.2)
    · exact Or.inl (hc.trans hg.2)
    · rw [hg.1] at hc
      simp at hc
  | case9 c0 c1 c2 c3 rest hg ih =>
    intro r h c hc
    rw [base64DecodeWith, if_neg hg] at h
    obtain ⟨⟨bs, hbs⟩, ⟨t, htr⟩⟩ := egroup_ok h
    obtain ⟨v0, v1, v2, v3⟩ := b64Group_ok hbs
    simp only [List.mem_cons] at hc
    rcases hc with hc | hc | hc | hc | hc
    · exact Or.inr (hc ▸ v0)
    · exact Or.inr (hc ▸ v1)
    · exact Or.inr (hc ▸ v2)
    · exact Or.inr (hc ▸ v3)
    · exact ih t htr c hc

theorem b64_decode_len_std (dec : Nat → Option Nat) :
    ∀ text : List Nat, text.length % 4 ≠ 0 →
      base64DecodeWith dec false text = .error .invalidBase64 := by
  intro text
  induction text using base64DecodeWith.induct dec false with
  | case1 =>
    intro h
    simp at h
  | case2 c0 => intro h; rfl
  | case3 c0 c1 han => exact absurd han (by decide)
  | case4 c0 c1 han =>
    intro h
    rw [base64DecodeWith, if_neg han]
  | case5 c0 c1 c2 han => exact absurd han (by decide)
  | case6 c0 c1 c2 han =>
    intro h
    rw [base64DecodeWith, if_neg han]
  | case7 c0 c1 c3 rest hg =>
    intro h
    exfalso
    rw [hg.1] at h
    simp at h
  | case8 c0 c1 c2 c3 rest hg h2 =>
    intro h
    exfalso
    rw [hg.1] at h
    simp at h
  | case9 c0 c1 c2 c3 rest hg ih =>
    intro h
    rw [base64DecodeWith, if_neg hg]
    have hlen : rest.length % 4 ≠ 0 := by
      simp only [List.length_cons] at h
      omega
    cases hbg : b64Group dec c0 c1 c2 c3 with
    | none => rw [egroup_none]
    | some bs => rw [ih hlen, egroup_some_error]

theorem b64_decode_len_url (dec : Nat → Option Nat) :
    ∀ text : List Nat, text.length % 4 = 1 →
      base64DecodeWith dec true text = .error .invalidBase64 := by
  intro text
  induction text using base64DecodeWith.induct dec true with
  | case1 =>
    intro h
    simp at h
  | case2 c0 => intro h; rfl
  | case3 c0 c1 han =>
    intro h
    simp only [List.length_cons, List.length_nil] at h
    omega
  | case4 c0 c1 han => exact absurd rfl han
  | case5 c0 c1 c2 han =>
    intro h
    simp only [List.length_cons, List.length_nil] at h
    omega
  | case6 c0 c1 c2 han => exact absurd rfl han
  | case7 c0 c1 c3 rest hg =>
    intro h
    exfalso
    rw [hg.1] at h
    simp only [List.length_cons, List.length_nil] at h
    omega
  | case8 c0 c1 c2 c3 rest hg h2 =>
    intro h
    exfalso
    rw [hg.1] at h
    simp only [List.length_cons, List.length_nil] at h
    omega
  | case9 c0 c1 c2 c3 rest hg ih =>
    intro h
    rw [base64DecodeWith, if_neg hg]
    have hlen : rest.length % 4 = 1 := by
      simp only [List.length_cons] at h
      omega
    cases hbg : b64Group dec c0 c1 c2 c3 with
    | none => rw [egroup_none]
    | some bs => rw [ih hlen, egroup_some_error]

theorem parse_unterminated (q : Nat) : ∀ rest : List Nat,
    (∀ c ∈ rest, c ≠ q ∧ c ≠ 92) →
    parseQuoted q rest = .error .unterminatedLiteral := by
  intro rest
  induction rest with
  | nil =>
    intro h
    exact parseQuoted_fail rfl
  | cons c rest ih =>
    intro h
    have hc := h c (by simp)
    rw [parseQuoted_emit (parseStep_pass rest hc.1 hc.2),
      ih (fun x hx => h x (by simp [hx])), emapList]

/-- C8: Base64 decoding fails exactly with `InvalidBase64` — its only
error — and does so whenever the text contains a character outside the
active alphabet (other than the padding character) or has a length
inconsistent with the padding rule; the literal parser fails with
`UnterminatedLiteral` when the closing quote is never found; all results
are all-or-nothing (`Except` carries either the full output or an
error). -/
theorem codec_error_conditions :
    (∀ text, (∃ r, base64Decode text = .ok r) ∨
      base64Decode text = .error .invalidBase64) ∧
    (∀ text, (∃ r, base64UrlsafeDecode text = .ok r) ∨
      base64UrlsafeDecode text = .error .invalidBase64) ∧
    (∀ text c, c ∈ text → b64DecStd c = none → c ≠ 61 →
      base64Decode text = .error .invalidBase64) ∧
    (∀ text c, c ∈ text → b64DecUrl c = none → c ≠ 61 →
      base64UrlsafeDecode text = .error .invalidBase64) ∧
    (∀ text : List Nat, text.length % 4 ≠ 0 →
      base64Decode text = .error .invalidBase64) ∧
    (∀ text : List Nat, text.length % 4 = 1 →
      base64UrlsafeDecode text = .error .invalidBase64) ∧
    (∀ q rest, (∀ c ∈ rest, c ≠ q ∧ c ≠ 92) →
      parseLiteral (q :: rest) = .error .unterminatedLiteral) := by
  refine ⟨fun text => b64_decode_cases b64DecStd false text,
    fun text => b64_decode_cases b64DecUrl true text, ?_, ?_,
    fun text h => b64_decode_len_std b64DecStd text h,
    fun text h => b64_decode_len_url b64DecUrl text h, ?_⟩
  · intro text c hc hdec hne
    rcases b64_decode_cases b64DecStd false text with ⟨r, hr⟩ | he
    · rcases b64_decode_ok_chars b64DecStd false text r hr c hc with h61 | ⟨v, hv⟩
      · exact absurd h61 hne
      · rw [hdec] at hv
        cases hv
    · exact he
  · intro text c hc hdec hne
    rcases b64_decode_cases b64DecUrl true text with ⟨r, hr⟩ | he
    · rcases b64_decode_ok_chars b64DecUrl true text r hr c hc with h61 | ⟨v, hv⟩
      · exact absurd h61 hne
      · rw [hdec] at hv
        cases hv
    · exact he
  · intro q rest h
    rw [parseLiteral]
    exact parse_unterminated q rest h

/-- Witness for C8: an out-of-alphabet character, a length-1 input for
both alphabets, and a literal missing its closing quote. -/
theorem codec_error_conditions_witness :
    base64Decode [33, 65, 65, 65] = .error .invalidBase64 ∧
    base64Decode [65] = .error .invalidBase64 ∧
    base64UrlsafeDecode [65] = .error .invalidBase64 ∧
    parseLiteral [34, 65] = .error .unterminatedLiteral :=
  ⟨codec_error_conditions.2.2.1 [33, 65, 65, 65] 33 (by decide) (by decide)
      (by decide),
    codec_error_conditions.2.2.2.2.1 [65] (by decide),
    codec_error_conditions.2.2.2.2.2.1 [65] (by decide),
    codec_error_conditions.2.2.2.2.2.2 34 [65] (by decide)⟩

theorem decodeStep_cons1 {b : Nat} (t : List Nat) (h : b < 128) :
    decodeStep (b :: t) = some (b, t) := by
  rw [decodeStep, if_pos h]

theorem decodeStep_cons2 {b b1 : Nat} (t : List Nat) (hb : 192 ≤ b ∧ b < 224)
    (h1 : isCont b1) :
    decodeStep (b :: b1 :: t) = some ((b - 192) * 64 + (b1 - 128), t) := by
  rw [decodeStep, if_neg (by omega), if_neg (by omega), if_pos hb.2, cont2,
    if_pos h1]

theorem decodeStep_cons3 {b b1 b2 : Nat} (t : List Nat)
    (hb : 224 ≤ b ∧ b < 240) (h1 : isCont b1) (h2 : isCont b2) :
    decodeStep (b :: b1 :: b2 :: t) =
      some ((b - 224) * 4096 + (b1 - 128) * 64 + (b2 - 128), t) := by
  have u1 : ¬b < 128 := by omega
  have u2 : ¬b < 192 := by omega
  have u3 : ¬b < 224 := by omega
  rw [decodeStep, if_neg u1, if_neg u2, if_neg u3,
    if_pos hb.2, cont3, if_pos ⟨h1, h2⟩]

theorem decodeStep_cons4 {b b1 b2 b3 : Nat} (t : List Nat)
    (hb : 240 ≤ b ∧ b < 248) (h1 : isCont b1) (h2 : isCont b2) (h3 : isCont b3) :
    decodeStep (b :: b1 :: b2 :: b3 :: t) =
      some ((b - 240) * 262144 + (b1 - 128) * 4096 + (b2 - 128) * 64 +
        (b3 - 128), t) := by
  have w1 : ¬b < 128 := by omega
  have w2 : ¬b < 192 := by omega
  have w3 : ¬b < 224 := by omega
  have w4 : ¬b < 240 := by omega
  rw [decodeStep, if_neg w1, if_neg w2, if_neg w3,
    if_neg w4, if_pos hb.2, cont4, if_pos ⟨h1, h2, h3⟩]

theorem decodeStep_trunc2 {b : Nat} (hb : 192 ≤ b ∧ b < 224) :
    decodeStep [b] = none := by
  rw [decodeStep, if_neg (by omega), if_neg (by omega), if_pos hb.2]
  rfl

theorem decodeStep_trunc3a {b : Nat} (hb : 224 ≤ b ∧ b < 240) :
    decodeStep [b] = none := by
  have v1 : ¬b < 128 := by omega
  have v2 : ¬b < 192 := by omega
  have v3 : ¬b < 224 := by omega
  rw [decodeStep, if_neg v1, if_neg v2, if_neg v3, if_pos hb.2]
  rfl

theorem decodeStep_trunc3b {b b1 : Nat} (hb : 224 ≤ b ∧ b < 240) :
    decodeStep [b, b1] = none := by
  have v1 : ¬b < 128 := by omega
  have v2 : ¬b < 192 := by omega
  have v3 : ¬b < 224 := by omega
  rw [decodeStep, if_neg v1, if_neg v2, if_neg v3, if_pos hb.2]
  rfl

theorem decodeStep_trunc4a {b : Nat} (hb : 240 ≤ b ∧ b < 248) :
    decodeStep [b] = none := by
  have z1 : ¬b < 128 := by omega
  have z2 : ¬b < 192 := by omega
  have z3 : ¬b < 224 := by omega
  have z4 : ¬b < 240 := by omega
  rw [decodeStep, if_neg z1, if_neg z2, if_neg z3, if_neg z4, if_pos hb.2]
  rfl

theorem decodeStep_trunc4b {b b1 : Nat} (hb : 240 ≤ b ∧ b < 248) :
    decodeStep [b, b1] = none := by
  have z1 : ¬b < 128 := by omega
  have z2 : ¬b < 192 := by omega
  have z3 : ¬b < 224 := by omega
  have z4 : ¬b < 240 := by omega
  rw [decodeStep, if_neg z1, if_neg z2, if_neg z3, if_neg z4, if_pos hb.2]
  rfl

theorem decodeStep_trunc4c {b b1 b2 : Nat} (hb : 240 ≤ b ∧ b < 248) :
    decodeStep [b, b1, b2] = none := by
  have z1 : ¬b < 128 := by omega
  have z2 : ¬b < 192 := by omega
  have z3 : ¬b < 224 := by omega
  have z4 : ¬b < 240 := by omega
  rw [decodeStep, if_neg z1, if_neg z2, if_neg z3, if_neg z4, if_pos hb.2]
  rfl

theorem decodeStep_shape {l : List Nat} {c : Nat} {r : List Nat}
    (h : decodeStep l = some (c, r)) :
    (∃ b, l = b :: r ∧ b < 128) ∨
    (∃ b b1, l = b :: b1 :: r ∧ 192 ≤ b ∧ b < 224 ∧ isCont b1) ∨
    (∃ b b1 b2, l = b :: b1 :: b2 :: r ∧ 224 ≤ b ∧ b < 240 ∧
      isCont b1 ∧ isCont b2) ∨
    (∃ b b1 b2 b3, l = b :: b1 :: b2 :: b3 :: r ∧ 240 ≤ b ∧ b < 248 ∧
      isCont b1 ∧ isCont b2 ∧ isCont b3) := by
  rcases l with _ | ⟨b, rest⟩
  · simp [decodeStep] at h
  · simp only [decodeStep] at h
    split at h
    · simp only [Option.some.injEq, Prod.mk.injEq] at h
      rename_i hb
      exact Or.inl ⟨b, by rw [h.2], hb⟩
    · split at h
      · cases h
      · split at h
        · rename_i hb1 hb2 hb3
          rcases rest with _ | ⟨b1, rest1⟩
          · simp [cont2] at h
          · simp only [cont2] at h
            split at h
            · rename_i hc1
              simp only [Option.some.injEq, Prod.mk.injEq] at h
              exact Or.inr (Or.inl ⟨b, b1, by rw [h.2], by omega, hb3, hc1⟩)
            · cases h
        · split at h
          · rename_i hb1 hb2 hb3 hb4
            rcases rest with _ | ⟨b1, _ | ⟨b2, rest2⟩⟩
            · simp [cont3] at h
            · simp [cont3] at h
            · simp only [cont3] at h
              split at h
              · rename_i hc12
                simp only [Option.some.injEq, Prod.mk.injEq] at h
                exact Or.inr (Or.inr (Or.inl ⟨b, b1, b2, by rw [h.2], by omega,
                  hb4, hc12.1, hc12.2⟩))
              · cases h
          · split at h
            · rename_i hb1 hb2 hb3 hb4 hb5
              rcases rest with _ | ⟨b1, _ | ⟨b2, _ | ⟨b3, rest3⟩⟩⟩
              · simp [cont4] at h
              · simp [cont4] at h
              · simp [cont4] at h
              · simp only [cont4] at h
                split at h
                · rename_i hc123
                  simp only [Option.some.injEq, Prod.mk.injEq] at h
                  exact Or.inr (Or.inr (Or.inr ⟨b, b1, b2, b3, by rw [h.2],
                    by omega, hb5, hc123.1, hc123.2.1, hc123.2.2⟩))
                · cases h
            · cases h

theorem decodable_step {l : List Nat} {c : Nat} {r : List Nat}
    (h : decodeStep l = some (c, r)) :
    (∃ cs, decodeUtf8 l = some cs) ↔ (∃ cs, decodeUtf8 r = some cs) := by
  rw [decodeUtf8_some_step h]
  constructor
  · rintro ⟨cs, hcs⟩
    cases hr : decodeUtf8 r with
    | none => rw [hr] at hcs; cases hcs
    | some x => exact ⟨x, rfl⟩
  · rintro ⟨cs, hcs⟩
    exact ⟨c :: cs, by rw [hcs]; rfl⟩

theorem utf8_boundary : ∀ (n : Nat) (bytes : List Nat), bytes.length = n →
    (∃ cs, decodeUtf8 bytes = some cs) → ∀ p, p ≤ bytes.length →
    ((∃ cs', decodeUtf8 (bytes.take p) = some cs') ↔
      (p = bytes.length ∨ ¬isCont (bytes.getD p 0))) := by
  intro n
  induction n using Nat.strong_induction_on with
  | _ n ih =>
    intro bytes hlen hok p hp
    rcases bytes with _ | ⟨b0, rest0⟩
    · have hp0 : p = 0 := by simpa using hp
      subst hp0
      constructor
      · intro _
        exact Or.inl rfl
      · intro _
        exact ⟨[], rfl⟩
    · obtain ⟨cs0, hcs0⟩ := hok
      have hsx : ∃ cr : Nat × List Nat, decodeStep (b0 :: rest0) = some cr := by
        cases hsv : decodeStep (b0 :: rest0) with
        | none =>
          rw [decodeUtf8_none_step (by simp) hsv] at hcs0
          cases hcs0
        | some cr => exact ⟨cr, rfl⟩
      obtain ⟨⟨c, r⟩, hs⟩ := hsx
      have hdr : ∃ cs', decodeUtf8 r = some cs' := by
        rw [decodeUtf8_some_step hs] at hcs0
        cases hrv : decodeUtf8 r with
        | none => rw [hrv] at hcs0; cases hcs0
        | some x => exact ⟨x, rfl⟩
      rcases decodeStep_shape hs with ⟨b, he, hb⟩ | ⟨b, b1, he, hb1, hb2, hc1⟩ |
        ⟨b, b1, b2, he, hb1, hb2, hc1, hc2⟩ |
        ⟨b, b1, b2, b3, he, hb1, hb2, hc1, hc2, hc3⟩
      · rw [he] at hlen hp ⊢
        rcases p with _ | q
        · constructor
          · intro _
            right
            rw [List.getD_cons_zero]
            rintro ⟨a1, a2⟩
            omega
          · intro _
            exact ⟨[], rfl⟩
        · rw [List.take_succ_cons,
            decodable_step (decodeStep_cons1 (List.take q r) hb)]
          have hq : q ≤ r.length := by
            simp only [List.length_cons] at hp
            omega
          have hln : r.length < n := by
            simp only [List.length_cons] at hlen
            omega
          rw [ih r.length hln r rfl hdr q hq, List.getD_cons_succ,
            List.length_cons]
          constructor
          · rintro (h1 | h1)
            · exact Or.inl (by omega)
            · exact Or.inr h1
          · rintro (h1 | h1)
            · exact Or.inl (by omega)
            · exact Or.inr h1
      · rw [he] at hlen hp ⊢
        rcases p with _ | _ | q
        · constructor
          · intro _
            right
            rw [List.getD_cons_zero]
            rintro ⟨a1, a2⟩
            omega
          · intro _
            exact ⟨[], rfl⟩
        · rw [List.take_succ_cons, List.take_zero]
          constructor
          · rintro ⟨cs', hcs'⟩
            rw [decodeUtf8_none_step (by simp) (decodeStep_trunc2 ⟨hb1, hb2⟩)]
              at hcs'
            cases hcs'
          · rintro (h1 | h1)
            · exfalso
              simp only [List.length_cons] at h1
              omega
            · exfalso
              rw [List.getD_cons_succ, List.getD_cons_zero] at h1
              exact h1 hc1
        · rw [List.take_succ_cons, List.take_succ_cons,
            decodable_step (decodeStep_cons2 (List.take q r) ⟨hb1, hb2⟩ hc1)]
          have hq : q ≤ r.length := by
            simp only [List.length_cons] at hp
            omega
          have hln : r.length < n := by
            simp only [List.length_cons] at hlen
            omega
          rw [ih r.length hln r rfl hdr q hq, List.getD_cons_succ,
            List.getD_cons_succ, List.length_cons, List.length_cons]
          constructor
          · rintro (h1 | h1)
            · exact Or.inl (by omega)
            · exact Or.inr h1
          · rintro (h1 | h1)
            · exact Or.inl (by omega)
            · exact Or.inr h1
      · rw [he] at hlen hp ⊢
        rcases p with _ | _ | _ | q
        · constructor
          · intro _
            right
            rw [List.getD_cons_zero]
            rintro ⟨a1, a2⟩
            omega
          · intro _
            exact ⟨[], rfl⟩
        · rw [List.take_succ_cons, List.take_zero]
          constructor
          · rintro ⟨cs', hcs'⟩
            rw [decodeUtf8_none_step (by simp) (decodeStep_trunc3a ⟨hb1, hb2⟩)]
              at hcs'
            cases hcs'
          · rintro (h1 | h1)
            · exfalso
              simp only [List.length_cons] at h1
              omega
            · exfalso
              rw [List.getD_cons_succ, List.getD_cons_zero] at h1
              exact h1 hc1
        · rw [List.take_succ_cons, List.take_succ_cons, List.take_zero]
          constructor
          · rintro ⟨cs', hcs'⟩
            rw [decodeUtf8_none_step (by simp) (decodeStep_trunc3b ⟨hb1, hb2⟩)]
              at hcs'
            cases hcs'
          · rintro (h1 | h1)
            · exfalso
              simp only [List.length_cons] at h1
              omega
            · exfalso
              rw [List.getD_cons_succ, List.getD_cons_succ,
                List.getD_cons_zero] at h1
              exact h1 hc2
        · rw [List.take_succ_cons, List.take_succ_cons, List.take_succ_cons,
            decodable_step (decodeStep_cons3 (List.take q r) ⟨hb1, hb2⟩ hc1 hc2)]
          have hq : q ≤ r.length := by
            simp only [List.length_cons] at hp
            omega
          have hln : r.length < n := by
            simp only [List.length_cons] at hlen
            omega
          rw [ih r.length hln r rfl hdr q hq, List.getD_cons_succ,
            List.getD_cons_succ, List.getD_cons_succ, List.length_cons,
            List.length_cons, List.length_cons]
          constructor
          · rintro (h1 | h1)
            · exact Or.inl (by omega)
            · exact Or.inr h1
          · rintro (h1 | h1)
            · exact Or.inl (by omega)
            · exact Or.inr h1
      · rw [he] at hlen hp ⊢
        rcases p with _ | _ | _ | _ | q
        · constructor
          · intro _
            right
            rw [List.getD_cons_zero]
            rintro ⟨a1, a2⟩
            omega
          · intro _
            exact ⟨[], rfl⟩
        · rw [List.take_succ_cons, List.take_zero]
          constructor
          · rintro ⟨cs', hcs'⟩
            rw [decodeUtf8_none_step (by simp) (decodeStep_trunc4a ⟨hb1, hb2⟩)]
              at hcs'
            cases hcs'
          · rintro (h1 | h1)
            · exfalso
              simp only [List.length_cons] at h1
              omega
            · exfalso
              rw [List.getD_cons_succ, List.getD_cons_zero] at h1
              exact h1 hc1
        · rw [List.take_succ_cons, List.take_succ_cons, List.take_zero]
          constructor
          · rintro ⟨cs', hcs'⟩
            rw [decodeUtf8_none_step (by simp) (decodeStep_trunc4b ⟨hb1, hb2⟩)]
              at hcs'
            cases hcs'
          · rintro (h1 | h1)
            · exfalso
              simp only [List.length_cons] at h1
              omega
            · exfalso
              rw [List.getD_cons_succ, List.getD_cons_succ,
                List.getD_cons_zero] at h1
              exact h1 hc2
        · rw [List.take_succ_cons, List.take_succ_cons, List.take_succ_cons,
            List.take_zero]
          constructor
          · rintro ⟨cs', hcs'⟩
            rw [decodeUtf8_none_step (by simp) (decodeStep_trunc4c ⟨hb1, hb2⟩)]
              at hcs'
            cases hcs'
          · rintro (h1 | h1)
            · exfalso
              simp only [List.length_cons] at h1
              omega
            · exfalso
              rw [List.getD_cons_succ, List.getD_cons_succ,
                List.getD_cons_succ, List.getD_cons_zero] at h1
              exact h1 hc3
        · rw [List.take_succ_cons, List.take_succ_cons, List.take_succ_cons,
            List.take_succ_cons,
            decodable_step (decodeStep_cons4 (List.take q r) ⟨hb1, hb2⟩ hc1 hc2
              hc3)]
          have hq : q ≤ r.length := by
            simp only [List.length_cons] at hp
            omega
          have hln : r.length < n := by
            simp only [List.length_cons] at hlen
            omega
          rw [ih r.length hln r rfl hdr q hq, List.getD_cons_succ,
            List.getD_cons_succ, List.getD_cons_succ, List.getD_cons_succ,
            List.length_cons, List.length_cons, List.length_cons,
            List.length_cons]
          constructor
          · rintro (h1 | h1)
            · exact Or.inl (by omega)
            · exact Or.inr h1
          · rintro (h1 | h1)
            · exact Or.inl (by omega)
            · exact Or.inr h1

theorem backOff_le (bytes : List Nat) : ∀ p, backOff bytes p ≤ p := by
  intro p
  induction p with
  | zero => exact Nat.le_refl 0
  | succ p ih =>
    rw [backOff]
    split
    · omega
    · omega

theorem backOff_stop (bytes : List Nat) : ∀ p, p ≤ bytes.length →
    (backOff bytes p = 0 ∨ backOff bytes p = bytes.length ∨
      ¬isCont (bytes.getD (backOff bytes p) 0)) := by
  intro p
  induction p with
  | zero =>
    intro _
    exact Or.inl rfl
  | succ p ih =>
    intro hp
    rw [backOff]
    split
    · exact ih (by omega)
    · rename_i hcond
      rw [Decidable.not_and_iff_or_not] at hcond
      rcases hcond with hcond | hcond
      · exact Or.inr (Or.inl (by omega))
      · exact Or.inr (Or.inr hcond)

theorem backOff_interval (bytes : List Nat) : ∀ p x, backOff bytes p < x →
    x ≤ p → (x < bytes.length ∧ isCont (bytes.getD x 0)) := by
  intro p
  induction p with
  | zero =>
    intro x h1 h2
    omega
  | succ p ih =>
    intro x h1 h2
    rw [backOff] at h1
    split at h1
    · rename_i hcond
      rcases Nat.lt_or_ge x (p + 1) with hx | hx
      · exact ih x h1 (by omega)
      · have hxe : x = p + 1 := by omega
        rw [hxe]
        exact hcond
    · omega

theorem backOff_at_len (bytes : List Nat) :
    backOff bytes bytes.length = bytes.length := by
  cases hl : bytes.length with
  | zero => rfl
  | succ p =>
    rw [backOff]
    split
    · rename_i hcond
      omega
    · rfl

/-- C4 (amended): `cropUtf8` never fails and always returns an offset at
most `min maxBytes length`; it returns `length` whenever
`maxBytes ≥ length` (hence `0` on empty input) and `0` when
`maxBytes = 0`; and whenever the input is valid UTF-8 (its decoding
succeeds), the returned offset is the largest offset at most
`min maxBytes length` whose prefix decodes as complete UTF-8
sequences. -/
theorem cropUtf8_spec (bytes : List Nat) (maxBytes : Nat) :
    cropUtf8 bytes maxBytes ≤ min maxBytes bytes.length ∧
    (maxBytes = 0 → cropUtf8 bytes maxBytes = 0) ∧
    (bytes.length ≤ maxBytes → cropUtf8 bytes maxBytes = bytes.length) ∧
    (∀ cs, decodeUtf8 bytes = some cs →
      (∃ cs', decodeUtf8 (bytes.take (cropUtf8 bytes maxBytes)) = some cs') ∧
      ∀ q, cropUtf8 bytes maxBytes < q → q ≤ min maxBytes bytes.length →
        ¬∃ cs', decodeUtf8 (bytes.take q) = some cs') := by
  refine ⟨backOff_le bytes _, ?_, ?_, ?_⟩
  · intro h
    rw [cropUtf8, h, Nat.zero_min, backOff]
  · intro h
    rw [cropUtf8, Nat.min_eq_right h, backOff_at_len]
  · intro cs hcs
    have hmin : min maxBytes bytes.length ≤ bytes.length := Nat.min_le_right _ _
    have hcrop_le : cropUtf8 bytes maxBytes ≤ bytes.length :=
      Nat.le_trans (backOff_le bytes _) hmin
    constructor
    · rcases backOff_stop bytes (min maxBytes bytes.length) hmin with h0 | h0 | h0
      · rw [cropUtf8, h0]
        exact ⟨[], rfl⟩
      · rw [cropUtf8, h0, List.take_length]
        exact ⟨cs, hcs⟩
      · exact (utf8_boundary bytes.length bytes rfl ⟨cs, hcs⟩ _ hcrop_le).mpr
          (Or.inr h0)
    · intro q h1 h2
      have hq := backOff_interval bytes (min maxBytes bytes.length) q h1 h2
      intro hdec
      rcases (utf8_boundary bytes.length bytes rfl ⟨cs, hcs⟩ q
          (Nat.le_trans h2 hmin)).mp hdec with he | hnc
      · omega
      · exact hnc hq.2

/-- Witness for C4 at the UTF-8 bytes of "пA" (a 2-byte character followed
by ASCII): cropping at budget 0, 1 and 7. -/
theorem cropUtf8_spec_witness :
    cropUtf8 [208, 191, 65] 0 = 0 ∧
    cropUtf8 [208, 191, 65] 7 = 3 ∧
    (∃ cs', decodeUtf8 (List.take (cropUtf8 [208, 191, 65] 1) [208, 191, 65]) =
      some cs') ∧
    ¬∃ cs', decodeUtf8 (List.take 1 [208, 191, 65]) = some cs' :=
  ⟨(cropUtf8_spec [208, 191, 65] 0).2.1 rfl,
    (cropUtf8_spec [208, 191, 65] 7).2.2.1 (by decide),
    ((cropUtf8_spec [208, 191, 65] 1).2.2.2 [1087, 65] (by decide)).1,
    ((cropUtf8_spec [208, 191, 65] 1).2.2.2 [1087, 65] (by decide)).2 1
      (by decide) (by decide)⟩

/-- Counterexample to C4 as stated: on the lone 2-byte lead byte 0xC2 with
`maxBytes = 1`, `cropUtf8` returns 1, yet the prefix of length 1 does not
consist of complete UTF-8 sequences (the empty prefix does, so the largest
complete offset is 0, not 1). -/
theorem cropUtf8_claim_counterexample :
    cropUtf8 [194] 1 = 1 ∧ decodeUtf8 (List.take 1 [194]) = none ∧
      decodeUtf8 (List.take 0 [194]) = some [] := by decide

/-- Modelled from the spec: the parts of `EngineController` reached from
the `app` library handlers (`EngineController` itself is not in src); the
model records the local player and the create/open calls issued. -/
structure EngineController where
  localPlayer : Int
  createdWorlds : List (String × String × String)
  openedWorlds : List (String × Bool)

/-- Modelled from the spec: `EngineController::setLocalPlayer` (not in
src) stores the local player id. -/
def setLocalPlayer (p : Int) (c : EngineController) : EngineController :=
  { c with localPlayer := p }

/-- Modelled from the spec: `EngineController::createWorld` (not in src);
the model records the created world's name, seed and generator. -/
def createWorld (name seed generator : String) (c : EngineController) :
    EngineController :=
  { c with createdWorlds := (name, seed, generator) :: c.createdWorlds }

/-- Modelled from the spec: `EngineController::openWorld` (not in src);
the model records the opened world's name and the confirm-convert flag. -/
def openWorld (name : String) (confirmConvert : Bool) (c : EngineController) :
    EngineController :=
  { c with openedWorlds := (name, confirmConvert) :: c.openedWorlds }

/-- State visible to the `app` library handlers: the scripting-global
`level` pointer (here: whether a level is open) and the engine
controller. -/
structure AppState where
  level : Option Unit
  controller : EngineController

/-- From `l_new_world` in src/src/logic/scripting/lua/libs/libapp.cpp:
after reading the string arguments and the optional local player, throw
"world must be closed before" if a level is open; otherwise set the local
player and create the world. -/
def l_new_world (name seed generator : String) (localPlayer : Int)
    (s : AppState) : Except String AppState :=
  if s.level.isSome then .error "world must be closed before"
  else
    .ok { s with controller :=
      createWorld name seed generator (setLocalPlayer localPlayer s.controller) }

/-- From `l_open_world` in src/src/logic/scripting/lua/libs/libapp.cpp:
throw "world must be closed before" if a level is open; otherwise set
local player 0 and open the world without confirm-convert. -/
def l_open_world (name : String) (s : AppState) : Except String AppState :=
  if s.level.isSome then .error "world must be closed before"
  else
    .ok { s with controller := openWorld name false (setLocalPlayer 0 s.controller) }

/-- C9: whenever a level is currently open, `new_world` and `open_world`
fail with the error "world must be closed before", and in that case no
world is created or opened — the handlers return no successor state, so
the engine controller is unchanged. -/
theorem world_must_be_closed (name seed generator : String) (localPlayer : Int)
    (s : AppState) (h : s.level.isSome = true) :
    l_new_world name seed generator localPlayer s =
      .error "world must be closed before" ∧
    l_open_world name s = .error "world must be closed before" ∧
    (∀ s', l_new_world name seed generator localPlayer s ≠ .ok s') ∧
    (∀ s', l_open_world name s ≠ .ok s') := by
  refine ⟨?_, ?_, ?_, ?_⟩
  · rw [l_new_world, if_pos h]
  · rw [l_open_world, if_pos h]
  · intro s' hcon
    rw [l_new_world, if_pos h] at hcon
    cases hcon
  · intro s' hcon
    rw [l_open_world, if_pos h] at hcon
    cases hcon

/-- Witness for C9 at a concrete state with an open level. -/
theorem world_must_be_closed_witness :
    l_new_world "w" "123" "core:default" 0 ⟨some (), ⟨0, [], []⟩⟩ =
      .error "world must be closed before" ∧
    l_open_world "w" ⟨some (), ⟨0, [], []⟩⟩ =
      .error "world must be closed before" :=
  ⟨(world_must_be_closed "w" "123" "core:default" 0 ⟨some (), ⟨0, [], []⟩⟩
      rfl).1,
    (world_must_be_closed "w" "123" "core:default" 0 ⟨some (), ⟨0, [], []⟩⟩
      rfl).2.1⟩

/-- Errors thrown by `l_create_memory_device`. -/
inductive IOError where
  | entryPointAlreadyUsed (name : String)
  | invalidEntryPointName
deriving DecidableEq

/-- An io device; the handler only ever registers in-memory devices. -/
inductive IODevice where
  | memory
deriving DecidableEq

/-- The io subsystem's registry of named entry-point devices. -/
structure IOState where
  devices : List (String × IODevice)

/-- Modelled from the spec: `io::get_device` (not in src): look up the
device bound to an entry-point name. -/
def get_device (s : IOState) (name : String) : Option IODevice :=
  (s.devices.find? (fun p => p.1 == name)).map (fun p => p.2)

/-- Modelled from the spec: `io::set_device` (not in src): bind a device
to an entry-point name. -/
def set_device (s : IOState) (name : String) (d : IODevice) : IOState :=
  ⟨(name, d) :: s.devices⟩

/-- From `l_create_memory_device` in
src/src/logic/scripting/lua/libs/libapp.cpp: fail if the entry-point name
is already bound; then fail if the name contains a colon; otherwise
register a fresh in-memory device under the name. -/
def l_create_memory_device (name : String) (s : IOState) :
    Except IOError IOState :=
  if (get_device s name).isSome then .error (.entryPointAlreadyUsed name)
  else if name.data.contains ':' then .error .invalidEntryPointName
  else .ok (set_device s name .memory)

/-- C10: `create_memory_device` fails — registering no device — whenever
the requested entry-point name is already bound or contains a colon;
otherwise it registers a fresh in-memory device under that name, leaving
every other binding unchanged. -/
theorem create_memory_device_spec (name : String) (s : IOState) :
    ((get_device s name).isSome = true →
      l_create_memory_device name s = .error (.entryPointAlreadyUsed name)) ∧
    (name.data.contains ':' = true →
      ∀ s', l_create_memory_device name s ≠ .ok s') ∧
    ((get_device s name).isSome = false → name.data.contains ':' = false →
      l_create_memory_device name s = .ok (set_device s name .memory) ∧
      get_device (set_device s name .memory) name = some .memory ∧
      ∀ other, other ≠ name →
        get_device (set_device s name .memory) other = get_device s other) := by
  refine ⟨?_, ?_, ?_⟩
  · intro h
    rw [l_create_memory_device, if_pos h]
  · intro h s' hcon
    rw [l_create_memory_device] at hcon
    by_cases h1 : (get_device s name).isSome = true
    · rw [if_pos h1] at hcon
      cases hcon
    · rw [if_neg h1, if_pos h] at hcon
      cases hcon
  · intro h1 h2
    refine ⟨?_, ?_, ?_⟩
    · rw [l_create_memory_device, if_neg (by rw [h1]; exact Bool.false_ne_true),
        if_neg (by rw [h2]; exact Bool.false_ne_true)]
    · rw [set_device, get_device]
      rw [List.find?_cons_of_pos _ (by simp)]
      rfl
    · intro other hne
      rw [set_device, get_device, get_device]
      rw [List.find?_cons_of_neg _ (by simp [Ne.symm hne])]

/-- Witness for C10: registering "mem" in an empty registry succeeds and
binds an in-memory device; a name containing a colon is rejected; a name
already bound is rejected with the already-used error. -/
theorem create_memory_device_witness :
    l_create_memory_device "mem" ⟨[]⟩ = .ok (set_device ⟨[]⟩ "mem" .memory) ∧
    get_device (set_device ⟨[]⟩ "mem" .memory) "mem" = some .memory ∧
    (∀ s', l_create_memory_device "a:b" ⟨[]⟩ ≠ .ok s') ∧
    l_create_memory_device "mem" ⟨[("mem", .memory)]⟩ =
      .error (.entryPointAlreadyUsed "mem") :=
  ⟨((create_memory_device_spec "mem" ⟨[]⟩).2.2 (by decide) (by decide)).1,
    ((create_memory_device_spec "mem" ⟨[]⟩).2.2 (by decide) (by decide)).2.1,
    (create_memory_device_spec "a:b" ⟨[]⟩).2.1 (by decide),
    (create_memory_device_spec "mem" ⟨[("mem", .memory)]⟩).1 (by decide)⟩
